import Mathlib

set_option maxRecDepth 40000

/-!
Verification of the query-language subsystem of the obsidian-tasks repository.

The TypeScript sources operate on JavaScript strings; we embed those as lists
of characters (`JStr`), with explicit ASCII case folding mirroring
`String.prototype.toLowerCase`, and JavaScript's code-unit `<` comparison
mirrored by `jstrLt`.  Machine integers do not occur in the modelled code
(array lengths and limits are small naturals), so `Nat` is used throughout.
-/

/-- Character list standing for a JavaScript string. -/
abbrev JStr := List Char

/-- Literal helper: the character data of a Lean string literal. -/
def jstr (s : String) : JStr := s.data

/-- ASCII lower-casing of one character, as done by `toLowerCase` on the
characters that occur in query instructions.  Spelled out as an explicit
26-way table so that its equations are directly available to proofs. -/
def lowerChar (c : Char) : Char :=
  if c = 'A' then 'a' else if c = 'B' then 'b' else if c = 'C' then 'c'
  else if c = 'D' then 'd' else if c = 'E' then 'e' else if c = 'F' then 'f'
  else if c = 'G' then 'g' else if c = 'H' then 'h' else if c = 'I' then 'i'
  else if c = 'J' then 'j' else if c = 'K' then 'k' else if c = 'L' then 'l'
  else if c = 'M' then 'm' else if c = 'N' then 'n' else if c = 'O' then 'o'
  else if c = 'P' then 'p' else if c = 'Q' then 'q' else if c = 'R' then 'r'
  else if c = 'S' then 's' else if c = 'T' then 't' else if c = 'U' then 'u'
  else if c = 'V' then 'v' else if c = 'W' then 'w' else if c = 'X' then 'x'
  else if c = 'Y' then 'y' else if c = 'Z' then 'z' else c

/-- `toLowerCase` on a JavaScript string (ASCII model). -/
def toLowerL (s : JStr) : JStr := s.map lowerChar

/-- Does `p` occur at the start of `l`?  (`String.prototype.startsWith`.) -/
def hasPrefixL : JStr → JStr → Bool
  | [], _ => true
  | _ :: _, [] => false
  | p :: ps, c :: cs => p = c && hasPrefixL ps cs

/-- Substring test (`String.prototype.includes`). -/
def containsSub (needle : JStr) : JStr → Bool
  | [] => hasPrefixL needle []
  | c :: cs => hasPrefixL needle (c :: cs) || containsSub needle cs

/-- Space test used by trimming (the modelled sources only meet ordinary
spaces and tabs at line edges). -/
def isSpaceChar (c : Char) : Bool := c = ' ' || c = '\t' || c = '\r'

/-- Drop leading whitespace. -/
def dropLeadingSpaces : JStr → JStr
  | [] => []
  | c :: cs => if isSpaceChar c then dropLeadingSpaces cs else c :: cs

/-- `String.prototype.trim` (ASCII whitespace model). -/
def trimL (s : JStr) : JStr :=
  (dropLeadingSpaces (dropLeadingSpaces s.reverse).reverse)

/-- JavaScript's code-unit `<` comparison of strings. -/
def jstrLt : JStr → JStr → Bool
  | [], [] => false
  | [], _ :: _ => true
  | _ :: _, [] => false
  | a :: as, b :: bs =>
    if a.toNat < b.toNat then true
    else if b.toNat < a.toNat then false
    else jstrLt as bs

/-- Join a list of strings with a separator (`Array.prototype.join`). -/
def joinWith (sep : JStr) : List JStr → JStr
  | [] => []
  | [x] => x
  | x :: y :: rest => x ++ sep ++ joinWith sep (y :: rest)

/-- Insert into a sorted list, after any element it does not strictly
precede: the stable insertion used to model JavaScript's stable
`Array.prototype.sort`. -/
def insertByLt {α : Type} (lt : α → α → Bool) (x : α) : List α → List α
  | [] => [x]
  | y :: ys => if lt x y then x :: y :: ys else y :: insertByLt lt x ys

/-- Stable sort by a strict comparison (`Array.prototype.sort` model). -/
def sortByLt {α : Type} (lt : α → α → Bool) (l : List α) : List α :=
  l.foldl (fun acc x => insertByLt lt x acc) []

-- Basic lemmas about the string model.

theorem lowerChar_map_drop (n : Nat) (s : JStr) :
    toLowerL (s.drop n) = (toLowerL s).drop n := by
  simp [toLowerL, List.map_drop]

theorem insertByLt_perm {α : Type} (lt : α → α → Bool) (x : α) (l : List α) :
    List.Perm (insertByLt lt x l) (x :: l) := by
  induction l with
  | nil => simp [insertByLt]
  | cons y ys ih =>
    simp only [insertByLt]
    by_cases h : lt x y
    · simp [h]
    · simp only [h, if_false]
      exact (List.Perm.cons y ih).trans (List.Perm.swap x y ys)

theorem sortByLt_perm {α : Type} (lt : α → α → Bool) (l : List α) :
    List.Perm (sortByLt lt l) l := by
  suffices h : ∀ (l acc : List α),
      List.Perm (l.foldl (fun acc x => insertByLt lt x acc) acc) (acc ++ l) by
    simpa using h l []
  intro l
  induction l with
  | nil => intro acc; simp
  | cons x xs ih =>
    intro acc
    have h1 : (x :: xs).foldl (fun acc x => insertByLt lt x acc) acc
        = xs.foldl (fun acc x => insertByLt lt x acc) (insertByLt lt x acc) := rfl
    rw [h1]
    have h2 := ih (insertByLt lt x acc)
    have h3 : List.Perm (insertByLt lt x acc ++ xs) ((x :: acc) ++ xs) :=
      (insertByLt_perm lt x acc).append_right xs
    have h4 : List.Perm ((x :: acc) ++ xs) (acc ++ x :: xs) := by
      simpa using (@List.perm_middle _ x acc xs).symm
    exact (h2.trans h3).trans h4

theorem insertByLt_pairwise {α : Type} (lt : α → α → Bool)
    (asym : ∀ a b, lt a b = true → lt b a = false)
    (tran : ∀ a b c, lt a b = true → lt b c = true → lt a c = true)
    (x : α) (l : List α)
    (h : l.Pairwise (fun a b => lt b a = false)) :
    (insertByLt lt x l).Pairwise (fun a b => lt b a = false) := by
  induction l with
  | nil => simp [insertByLt]
  | cons y ys ih =>
    rcases List.pairwise_cons.mp h with ⟨hy, hys⟩
    by_cases hxy : lt x y
    · simp only [insertByLt, hxy, if_true]
      refine List.pairwise_cons.mpr ⟨?_, h⟩
      intro z hz
      rcases List.mem_cons.mp hz with rfl | hz
      · exact asym _ _ hxy
      · cases hc : lt z x with
        | false => rfl
        | true =>
          have hzy : lt z y = true := tran z x y hc hxy
          have h1 := hy z hz
          rw [hzy] at h1
          exact Bool.noConfusion h1
    · simp only [insertByLt, hxy, if_false]
      refine List.pairwise_cons.mpr ⟨?_, ih hys⟩
      intro z hz
      rcases List.mem_cons.mp ((insertByLt_perm lt x ys).mem_iff.mp hz) with rfl | hmem
      · exact Bool.eq_false_iff.mpr hxy
      · exact hy z hmem

theorem sortByLt_pairwise {α : Type} (lt : α → α → Bool)
    (asym : ∀ a b, lt a b = true → lt b a = false)
    (tran : ∀ a b c, lt a b = true → lt b c = true → lt a c = true)
    (l : List α) :
    (sortByLt lt l).Pairwise (fun a b => lt b a = false) := by
  suffices h : ∀ (l acc : List α),
      acc.Pairwise (fun a b => lt b a = false) →
      (l.foldl (fun acc x => insertByLt lt x acc) acc).Pairwise
        (fun a b => lt b a = false) by
    exact h l [] (by simp)
  intro l
  induction l with
  | nil => intro acc hacc; simpa using hacc
  | cons x xs ih =>
    intro acc hacc
    exact ih _ (insertByLt_pairwise lt asym tran x acc hacc)

theorem jstrLt_asymm : ∀ a b : JStr, jstrLt a b = true → jstrLt b a = false := by
  intro a
  induction a with
  | nil =>
    intro b h
    cases b with
    | nil => exact absurd h (by simp [jstrLt])
    | cons d ds => simp [jstrLt]
  | cons c cs ih =>
    intro b h
    cases b with
    | nil => exact absurd h (by simp [jstrLt])
    | cons d ds =>
      simp only [jstrLt] at h ⊢
      have h1 : ¬ d.toNat < c.toNat := by
        intro h'
        rw [if_neg (Nat.lt_asymm h'), if_pos h'] at h
        exact Bool.noConfusion h
      by_cases h2 : c.toNat < d.toNat
      · rw [if_neg h1, if_pos h2]
      · rw [if_neg h2, if_neg h1] at h
        rw [if_neg h1, if_neg h2]
        exact ih ds h

theorem jstrLt_trans :
    ∀ a b c : JStr, jstrLt a b = true → jstrLt b c = true → jstrLt a c = true := by
  intro a
  induction a with
  | nil =>
    intro b c hab hbc
    cases b with
    | nil => exact absurd hab (by simp [jstrLt])
    | cons y ys =>
      cases c with
      | nil => exact absurd hbc (by simp [jstrLt])
      | cons z zs => simp [jstrLt]
  | cons x xs ih =>
    intro b c hab hbc
    cases b with
    | nil => exact absurd hab (by simp [jstrLt])
    | cons y ys =>
      cases c with
      | nil => exact absurd hbc (by simp [jstrLt])
      | cons z zs =>
        simp only [jstrLt] at hab hbc ⊢
        have hxy : ¬ y.toNat < x.toNat := by
          intro h'
          rw [if_neg (Nat.lt_asymm h'), if_pos h'] at hab
          exact Bool.noConfusion hab
        have hyz : ¬ z.toNat < y.toNat := by
          intro h'
          rw [if_neg (Nat.lt_asymm h'), if_pos h'] at hbc
          exact Bool.noConfusion hbc
        by_cases hxz : x.toNat < z.toNat
        · rw [if_pos hxz]
        · rw [if_neg (by omega : ¬ x.toNat < y.toNat), if_neg hxy] at hab
          rw [if_neg (by omega : ¬ y.toNat < z.toNat), if_neg hyz] at hbc
          rw [if_neg hxz, if_neg (by omega : ¬ z.toNat < x.toNat)]
          exact ih ys zs hab hbc

/-!
## Grouping tree builder

Embedded from `IntermediateTaskGroups` (src/src/Query/Filter/FilterOrErrorMessage.ts,
second unit) and `Group` / `TaskGroup` / `TaskGroups` (src/unnamed/part_009,
src/unnamed/part_014).  A grouper maps a task to the list of group names it
belongs to (`Group.getGroupNamesForTask`); `buildGroupingTree` expands each
tree level by distributing every node's tasks over children keyed by group
name, creating children in first-encounter order and appending tasks in
visit order, exactly as the nested loops in the source do.
-/


/-- Push `t` into the child keyed `name`, creating the child at the end of
the children list when absent (the `children.get` / `children.set` /
`child.values.push` steps of `buildGroupingTree`). -/
def addTaskToChildren {τ : Type} (name : JStr) (t : τ) :
    List (JStr × List τ) → List (JStr × List τ)
  | [] => [(name, [t])]
  | (k, ts) :: rest =>
    if k = name then (k, ts ++ [t]) :: rest
    else (k, ts) :: addTaskToChildren name t rest

/-- Distribute a node's tasks over its children, task by task and group name
by group name, as the two inner loops of `buildGroupingTree` do. -/
def distributeTasks {τ : Type} (grouper : τ → List JStr) (tasks : List τ) :
    List (JStr × List τ) :=
  tasks.foldl
    (fun acc t => (grouper t).foldl (fun acc2 name => addTaskToChildren name t acc2) acc)
    []

/-- The root-to-leaf flattening of the grouping tree:
`IntermediateTaskGroups.buildGroupingTree` (which expands each level with
`distributeTasks`) composed with `GroupingTreeNode.generateAllPaths`
(modelled from the spec, as that file is not under src/: every root-to-leaf
path becomes a `(groupNamePath, tasks)` pair, a node with no children being
a leaf that contributes its own task list).  The recursion is per tree
level, one step per grouper, exactly as the level-by-level construction in
the source. -/
def groupPaths {τ : Type} :
    List (τ → List JStr) → List τ → List (List JStr × List τ)
  | [], tasks => [([], tasks)]
  | g :: rest, tasks =>
    match distributeTasks g tasks with
    | [] => [([], tasks)]
    | c :: cs =>
      (c :: cs).flatMap
        (fun e => (groupPaths rest e.2).map (fun p => (e.1 :: p.1, p.2)))

/-- The string JavaScript's default sort comparator compares for one
`[groupNames, tasks]` entry of `IntermediateTaskGroupsStorage`: `Array`'s
`toString` joins the two sub-arrays (and their elements) with commas;
`taskStr` stands for the `toString` of one task. -/
def entryString {τ : Type} (taskStr : τ → JStr) (e : List JStr × List τ) : JStr :=
  joinWith [','] e.1 ++ [','] ++ joinWith [','] (e.2.map taskStr)

/-- `IntermediateTaskGroups.getSortedGroups`: `[...entries].sort()` — the
comparator-less JavaScript sort, which compares entries by their string
conversion, code unit by code unit (stably, per the ECMAScript spec). -/
def getSortedGroups {τ : Type} (taskStr : τ → JStr)
    (groups : List (List JStr × List τ)) : List (List JStr × List τ) :=
  sortByLt (fun a b => jstrLt (entryString taskStr a) (entryString taskStr b)) groups

/-- Total number of task occurrences across the flattened leaf task lists. -/
def leafTaskCount {τ : Type} (gs : List (τ → List JStr)) (tasks : List τ) : Nat :=
  ((groupPaths gs tasks).map (fun p => p.2.length)).sum

/-- Sum of the task-list lengths of a children list. -/
def childrenTaskCount {τ : Type} (l : List (JStr × List τ)) : Nat :=
  (l.map (fun e => e.2.length)).sum

theorem addTaskToChildren_count {τ : Type} (name : JStr) (t : τ) :
    ∀ acc : List (JStr × List τ),
      childrenTaskCount (addTaskToChildren name t acc) = childrenTaskCount acc + 1 := by
  intro acc
  induction acc with
  | nil => simp [addTaskToChildren, childrenTaskCount]
  | cons e rest ih =>
    obtain ⟨k, ts⟩ := e
    simp only [addTaskToChildren]
    by_cases h : k = name
    · simp only [if_pos h, childrenTaskCount, List.map_cons, List.sum_cons, List.length_append]
      simp
      omega
    · simp only [if_neg h, childrenTaskCount, List.map_cons, List.sum_cons] at ih ⊢
      omega

theorem distributeTasks_count {τ : Type} (g : τ → List JStr) (tasks : List τ) :
    childrenTaskCount (distributeTasks g tasks)
      = (tasks.map (fun t => (g t).length)).sum := by
  suffices h : ∀ (tasks : List τ) (acc : List (JStr × List τ)),
      childrenTaskCount
          (tasks.foldl
            (fun acc t => (g t).foldl (fun acc2 name => addTaskToChildren name t acc2) acc)
            acc)
        = childrenTaskCount acc + (tasks.map (fun t => (g t).length)).sum by
    simpa [distributeTasks, childrenTaskCount] using h tasks []
  intro tasks
  induction tasks with
  | nil => intro acc; simp
  | cons t ts ih =>
    intro acc
    have hinner : ∀ (names : List JStr) (acc2 : List (JStr × List τ)),
        childrenTaskCount (names.foldl (fun acc2 name => addTaskToChildren name t acc2) acc2)
          = childrenTaskCount acc2 + names.length := by
      intro names
      induction names with
      | nil => intro acc2; simp
      | cons n ns ihn =>
        intro acc2
        simp only [List.foldl_cons, List.length_cons]
        rw [ihn, addTaskToChildren_count]
        omega
    simp only [List.foldl_cons, List.map_cons, List.sum_cons]
    rw [ih, hinner]
    omega

theorem addTaskToChildren_mem {τ : Type} {P : τ → Prop} (name : JStr) (t : τ)
    (acc : List (JStr × List τ))
    (hacc : ∀ e ∈ acc, ∀ x ∈ e.2, P x) (ht : P t) :
    ∀ e ∈ addTaskToChildren name t acc, ∀ x ∈ e.2, P x := by
  induction acc with
  | nil =>
    intro e he x hx
    simp only [addTaskToChildren, List.mem_singleton] at he
    subst he
    simp only [List.mem_singleton] at hx
    subst hx
    exact ht
  | cons p rest ih =>
    obtain ⟨k, ts⟩ := p
    intro e he x hx
    simp only [addTaskToChildren] at he
    by_cases h : k = name
    · rw [if_pos h] at he
      rcases List.mem_cons.mp he with rfl | he
      · rcases List.mem_append.mp hx with hx | hx
        · exact hacc (k, ts) (List.mem_cons_self _ _) x hx
        · simp only [List.mem_singleton] at hx; subst hx; exact ht
      · exact hacc e (List.mem_cons_of_mem _ he) x hx
    · rw [if_neg h] at he
      rcases List.mem_cons.mp he with rfl | he
      · exact hacc (k, ts) (List.mem_cons_self _ _) x hx
      · exact ih (fun e he => hacc e (List.mem_cons_of_mem _ he)) e he x hx

theorem distributeTasks_mem {τ : Type} (g : τ → List JStr) (tasks : List τ) :
    ∀ e ∈ distributeTasks g tasks, ∀ x ∈ e.2, x ∈ tasks := by
  suffices h : ∀ (P : τ → Prop) (ts : List τ) (acc : List (JStr × List τ)),
      (∀ e ∈ acc, ∀ x ∈ e.2, P x) → (∀ t ∈ ts, P t) →
      ∀ e ∈ ts.foldl
          (fun acc t => (g t).foldl (fun acc2 name => addTaskToChildren name t acc2) acc)
          acc, ∀ x ∈ e.2, P x by
    exact h (fun x => x ∈ tasks) tasks [] (by simp) (fun t ht => ht)
  intro P ts
  induction ts with
  | nil => intro acc hacc _; simpa using hacc
  | cons t ts ih =>
    intro acc hacc hts
    simp only [List.foldl_cons]
    refine ih _ ?_ (fun u hu => hts u (List.mem_cons_of_mem _ hu))
    have ht : P t := hts t (List.mem_cons_self _ _)
    have hnames : ∀ (names : List JStr) (acc2 : List (JStr × List τ)),
        (∀ e ∈ acc2, ∀ x ∈ e.2, P x) →
        ∀ e ∈ names.foldl (fun acc2 name => addTaskToChildren name t acc2) acc2,
          ∀ x ∈ e.2, P x := by
      intro names
      induction names with
      | nil => intro acc2 h2; simpa using h2
      | cons n ns ihn =>
        intro acc2 h2
        simp only [List.foldl_cons]
        exact ihn _ (addTaskToChildren_mem n t acc2 h2 ht)
    exact hnames _ acc hacc

theorem groupPaths_mem {τ : Type} :
    ∀ (gs : List (τ → List JStr)) (tasks : List τ),
      ∀ p ∈ groupPaths gs tasks, ∀ x ∈ p.2, x ∈ tasks := by
  intro gs
  induction gs with
  | nil =>
    intro tasks p hp x hx
    simp only [groupPaths, List.mem_singleton] at hp
    subst hp
    exact hx
  | cons g rest ih =>
    intro tasks p hp x hx
    simp only [groupPaths] at hp
    cases hd : distributeTasks g tasks with
    | nil =>
      rw [hd] at hp
      simp only [List.mem_singleton] at hp
      subst hp
      exact hx
    | cons c cs =>
      rw [hd] at hp
      rcases List.mem_flatMap.mp hp with ⟨e, he, hpe⟩
      rcases List.mem_map.mp hpe with ⟨q, hq, rfl⟩
      have hx' : x ∈ e.2 := ih e.2 q hq x hx
      exact distributeTasks_mem g tasks e (hd ▸ he) x hx'

theorem leafTaskCount_lower {τ : Type} :
    ∀ (gs : List (τ → List JStr)) (tasks : List τ),
      (∀ g ∈ gs, ∀ t : τ, 1 ≤ (g t).length) →
      tasks.length ≤ leafTaskCount gs tasks := by
  intro gs
  induction gs with
  | nil =>
    intro tasks _
    simp [leafTaskCount, groupPaths]
  | cons g rest ih =>
    intro tasks hgs
    have hone : ∀ t : τ, 1 ≤ (g t).length := hgs g (List.mem_cons_self _ _)
    have hrest : ∀ g' ∈ rest, ∀ t : τ, 1 ≤ (g' t).length :=
      fun g' hg' => hgs g' (List.mem_cons_of_mem _ hg')
    have hsum : tasks.length ≤ (tasks.map (fun t => (g t).length)).sum := by
      induction tasks with
      | nil => simp
      | cons t ts iht =>
        simp only [List.length_cons, List.map_cons, List.sum_cons]
        have := hone t
        omega
    rw [leafTaskCount, groupPaths]
    cases hd : distributeTasks g tasks with
    | nil =>
      have h0 : childrenTaskCount (distributeTasks g tasks) = 0 := by
        rw [hd]; simp [childrenTaskCount]
      rw [distributeTasks_count] at h0
      simp only [List.map_cons]
      have : tasks.length = 0 := by omega
      simp [this]
    | cons c cs =>
      have hcount : childrenTaskCount (c :: cs)
          = (tasks.map (fun t => (g t).length)).sum := by
        rw [← hd, distributeTasks_count]
      have hflat : ∀ l : List (JStr × List τ),
          ((l.flatMap
              (fun e => (groupPaths rest e.2).map (fun p => (e.1 :: p.1, p.2)))).map
            (fun p => p.2.length)).sum
          = (l.map (fun e => leafTaskCount rest e.2)).sum := by
        intro l
        induction l with
        | nil => simp
        | cons e es ihe =>
          simp only [List.flatMap_cons, List.map_append, List.sum_append, List.map_cons,
            List.sum_cons, List.map_map, ihe, leafTaskCount]
          congr 1
      rw [hflat]
      have hchild : ∀ l : List (JStr × List τ),
          childrenTaskCount l ≤ (l.map (fun e => leafTaskCount rest e.2)).sum := by
        intro l
        induction l with
        | nil => simp [childrenTaskCount]
        | cons e es ihe =>
          simp only [childrenTaskCount, List.map_cons, List.sum_cons] at ihe ⊢
          have := ih e.2 hrest
          omega
      have := hchild (c :: cs)
      omega

/-!
## Built-in groupers (src/unnamed/part_009)

The grouping-era `Task` exposes the fields these groupers read: a status
string, the file path, the file name (null when unknown) and the heading
preceding the task (null when none).
-/

/-- The fields of the grouping-era `Task` that the `Group` groupers read. -/
structure GTask : Type where
  status : JStr
  path : JStr
  filename : Option JStr
  precedingHeader : Option JStr
deriving DecidableEq, Repr

/-- `Group.groupByStatus`. -/
def groupByStatus (t : GTask) : JStr := t.status

/-- `Group.groupByFileName`: `'Unknown Location'` when the file name is
null. -/
def groupByFileName (t : GTask) : JStr :=
  match t.filename with
  | none => jstr "Unknown Location"
  | some f => f

/-- `Group.groupByHeading`: `'(No heading)'` when the preceding header is
null or empty. -/
def groupByHeading (t : GTask) : JStr :=
  match t.precedingHeader with
  | none => jstr "(No heading)"
  | some h => if h.length = 0 then jstr "(No heading)" else h

/-!
## BlockingField (src/unnamed/part_011)

`SearchInfo` carries the full task universe; `task.status.isCompleted()` is
carried as a boolean field of the embedded task.
-/

/-- The fields of the dependency-era `Task` that `BlockingField` reads. -/
structure BTask : Type where
  id : JStr
  dependsOn : List JStr
  statusIsCompleted : Bool
deriving DecidableEq, Repr

/-- `SearchInfo`: the universe of tasks a search runs over. -/
structure BSearchInfo : Type where
  allTasks : List BTask
deriving Repr

/-- The `'is blocking'` filter of `BlockingField`. -/
def isBlockingFilter (task : BTask) (searchInfo : BSearchInfo) : Bool :=
  if task.id = [] then false
  else searchInfo.allTasks.any (fun cacheTask => cacheTask.dependsOn.contains task.id)

/-- The loop body of the `'is not blocked'` filter: walk `dependsOn`, skip
ids that resolve to no task (`continue`), return false on the first
resolved incomplete dependency. -/
def notBlockedLoop (allTasks : List BTask) : List JStr → Bool
  | [] => true
  | depId :: rest =>
    match allTasks.find? (fun task => task.id = depId) with
    | none => notBlockedLoop allTasks rest
    | some depTask =>
      if depTask.statusIsCompleted then notBlockedLoop allTasks rest else false

/-- The `'is not blocked'` filter of `BlockingField`. -/
def isNotBlockedFilter (task : BTask) (searchInfo : BSearchInfo) : Bool :=
  if task.dependsOn.isEmpty then true
  else notBlockedLoop searchInfo.allTasks task.dependsOn

/-!
## DateField (src/unnamed/part_013)

`DateField.createFilterOrErrorMessage` compiles `<field> before|after|on
<date>` into a filter that compares the task's date with the query date and
falls back to the field-specific constant `filterResultIfFieldMissing()`
when the task has no such date.  Dates are embedded as day-ordered naturals
(`isBefore` / `isAfter` / `isSame` at day granularity).
-/

/-- The comparison keyword captured by the `DateField` regular expression
(`before`, `after`, anything else meaning `on`). -/
inductive DateOp : Type where
  | before
  | after
  | onDate
deriving DecidableEq, Repr

/-- The date filter built by `DateField.createFilterOrErrorMessage` for one
task, given the task's optional date, the field's
`filterResultIfFieldMissing()` constant, the operator and the query date. -/
def dateFilterValue (taskDate : Option Nat) (missingResult : Bool)
    (op : DateOp) (filterDate : Nat) : Bool :=
  match taskDate with
  | some d =>
    match op with
    | .before => decide (d < filterDate)
    | .after => decide (filterDate < d)
    | .onDate => decide (d = filterDate)
  | none => missingResult

/-!
## Date-field instances

`DateField` (src/unnamed/part_013) is abstract in its `date()` accessor and
its `filterResultIfFieldMissing()` constant.  The concrete subclasses are
not under src/ — only their tests are — so the constants are modelled from
the spec and those tests.
-/

/-- The fields of the query-era `Task` that the modelled instructions read. -/
structure QTask : Type where
  status : JStr
  description : JStr
  path : JStr
  startDate : Option Nat
  scheduledDate : Option Nat
  dueDate : Option Nat
deriving DecidableEq, Repr

/-- Modelled from the spec: `StartDateField.filterResultIfFieldMissing` is
not under src/ (only its tests, src/unnamed/part_008, are); those tests pin
that a task with no start date matches, the filters being explained with a
trailing `OR no start date`. -/
def startDateMissingResult : Bool := true

/-- Modelled from the spec: `ScheduledDateField.filterResultIfFieldMissing`
is not under src/ (only its tests are); the filtering tests pin that a task
with no scheduled date does not match `scheduled before <date>`. -/
def scheduledDateMissingResult : Bool := false

/-- Modelled from the spec: `DueDateField.filterResultIfFieldMissing` is not
under src/; like the scheduled-date field (and unlike the start-date
field), tasks lacking the date do not match its `before`/`after`/`on`
filters. -/
def dueDateMissingResult : Bool := false

/-- The compiled `starts before|after|on <date>` filter. -/
def startsDateFilter (op : DateOp) (filterDate : Nat) (t : QTask) : Bool :=
  dateFilterValue t.startDate startDateMissingResult op filterDate

/-- The compiled `scheduled before|after|on <date>` filter. -/
def scheduledDateFilter (op : DateOp) (filterDate : Nat) (t : QTask) : Bool :=
  dateFilterValue t.scheduledDate scheduledDateMissingResult op filterDate

/-- The compiled `due before|after|on <date>` filter. -/
def dueDateFilter (op : DateOp) (filterDate : Nat) (t : QTask) : Bool :=
  dateFilterValue t.dueDate dueDateMissingResult op filterDate

/-- Claim C9: a task with no date for the filtered field yields the
field-specific `filterResultIfFieldMissing()` constant, independent of the
comparison operator and of the query date; the start-date variants match
every task with no start date, while the due-date (and scheduled-date)
variants do not match tasks lacking the date. -/
theorem claim_C9_date_field_missing :
    (∀ (taskDate : Option Nat) (missingResult : Bool) (op : DateOp) (d : Nat),
        taskDate = none → dateFilterValue taskDate missingResult op d = missingResult)
    ∧ (∀ (t : QTask) (op : DateOp) (d : Nat),
        t.startDate = none → startsDateFilter op d t = true)
    ∧ (∀ (t : QTask) (op : DateOp) (d : Nat),
        t.dueDate = none → dueDateFilter op d t = false)
    ∧ (∀ (t : QTask) (op : DateOp) (d : Nat),
        t.scheduledDate = none → scheduledDateFilter op d t = false) := by
  refine ⟨?_, ?_, ?_, ?_⟩
  · intro taskDate missingResult op d h
    subst h
    rfl
  · intro t op d h
    simp [startsDateFilter, dateFilterValue, h, startDateMissingResult]
  · intro t op d h
    simp [dueDateFilter, dateFilterValue, h, dueDateMissingResult]
  · intro t op d h
    simp [scheduledDateFilter, dateFilterValue, h, scheduledDateMissingResult]

/-- Witness for C9 at a concrete dateless task and a concrete query date. -/
theorem claim_C9_date_field_missing_witness :
    startsDateFilter .before 20220420 ⟨jstr "Todo", jstr "task 1", jstr "f.md", none, none, none⟩ = true
    ∧ dueDateFilter .before 20220420 ⟨jstr "Todo", jstr "task 1", jstr "f.md", none, none, none⟩ = false
    ∧ scheduledDateFilter .after 20220420 ⟨jstr "Todo", jstr "task 1", jstr "f.md", none, none, none⟩ = false
    ∧ dateFilterValue none true .onDate 5 = true :=
  ⟨claim_C9_date_field_missing.2.1 _ _ _ rfl,
   claim_C9_date_field_missing.2.2.1 _ _ _ rfl,
   claim_C9_date_field_missing.2.2.2 _ _ _ rfl,
   claim_C9_date_field_missing.1 none true .onDate 5 rfl⟩

/-- Claim C10: `is not blocked` is true when `dependsOn` is empty, and in
general true exactly when every dependency id that resolves (via `find`)
to a task in `SearchInfo.allTasks` points at a completed task — unresolved
ids are skipped; `is blocking` is false for every task whose id is empty. -/
theorem claim_C10_blocking_filters :
    ∀ (task : BTask) (searchInfo : BSearchInfo),
      (task.dependsOn = [] → isNotBlockedFilter task searchInfo = true)
      ∧ (isNotBlockedFilter task searchInfo = true ↔
          ∀ depId ∈ task.dependsOn, ∀ depTask : BTask,
            searchInfo.allTasks.find? (fun t => t.id = depId) = some depTask →
            depTask.statusIsCompleted = true)
      ∧ (task.id = [] → isBlockingFilter task searchInfo = false) := by
  have hloop : ∀ (allTasks : List BTask) (l : List JStr),
      notBlockedLoop allTasks l = true ↔
        ∀ depId ∈ l, ∀ depTask : BTask,
          allTasks.find? (fun t => t.id = depId) = some depTask →
          depTask.statusIsCompleted = true := by
    intro allTasks l
    induction l with
    | nil => simp [notBlockedLoop]
    | cons depId rest ih =>
      simp only [notBlockedLoop]
      split
      · rename_i hfind
        rw [ih]
        constructor
        · intro h d hd dep hdep
          rcases List.mem_cons.mp hd with rfl | hd
          · rw [hfind] at hdep
            exact Option.noConfusion hdep
          · exact h d hd dep hdep
        · intro h d hd dep hdep
          exact h d (List.mem_cons_of_mem _ hd) dep hdep
      · rename_i depTask hfind
        by_cases hc : depTask.statusIsCompleted
        · rw [if_pos hc, ih]
          constructor
          · intro h d hd dep hdep
            rcases List.mem_cons.mp hd with rfl | hd
            · rw [hfind] at hdep
              injection hdep with hdep
              subst hdep
              exact hc
            · exact h d hd dep hdep
          · intro h d hd dep hdep
            exact h d (List.mem_cons_of_mem _ hd) dep hdep
        · rw [if_neg hc]
          constructor
          · intro h
            exact Bool.noConfusion h
          · intro h
            have := h depId (List.mem_cons_self _ _) depTask hfind
            exact absurd this hc
  intro task searchInfo
  refine ⟨?_, ?_, ?_⟩
  · intro h
    simp [isNotBlockedFilter, h]
  · rw [isNotBlockedFilter]
    by_cases he : task.dependsOn.isEmpty
    · rw [if_pos he]
      have : task.dependsOn = [] := List.isEmpty_iff.mp he
      simp [this]
    · rw [if_neg he]
      exact hloop searchInfo.allTasks task.dependsOn
  · intro h
    simp [isBlockingFilter, h]

/-- Witness for C10: an empty `dependsOn` is never blocked, an empty id is
never blocking, and an unresolved dependency id does not block. -/
theorem claim_C10_blocking_filters_witness :
    isNotBlockedFilter ⟨jstr "t1", [], false⟩ ⟨[]⟩ = true
    ∧ isBlockingFilter ⟨[], [jstr "a"], false⟩ ⟨[⟨jstr "a", [], true⟩]⟩ = false
    ∧ isNotBlockedFilter ⟨jstr "t2", [jstr "nosuch"], false⟩
        ⟨[⟨jstr "other", [], false⟩]⟩ = true :=
  ⟨(claim_C10_blocking_filters _ _).1 rfl,
   (claim_C10_blocking_filters _ _).2.2 rfl,
   ((claim_C10_blocking_filters _ _).2.1).mpr (by decide)⟩

/-- Claim C8: grouping is fan-out — the total number of task occurrences
across the flattened leaf task lists can exceed the input count when a
grouper returns several names for one task, and is never below the input
count when every grouper returns at least one name for every task; the
built-in groupers of src/unnamed/part_009 always return exactly one name,
supplying the fallback names `(No heading)` and `Unknown Location` for
missing data, so no task is dropped. -/
theorem claim_C8_grouping_fanout_invariant :
    (∀ (gs : List (GTask → List JStr)) (tasks : List GTask),
        (∀ g ∈ gs, ∀ t : GTask, 1 ≤ (g t).length) →
        tasks.length ≤ leafTaskCount gs tasks)
    ∧ (∃ (gs : List (GTask → List JStr)) (tasks : List GTask),
        tasks.length < leafTaskCount gs tasks)
    ∧ (∀ t : GTask, t.precedingHeader = none ∨ t.precedingHeader = some [] →
        groupByHeading t = jstr "(No heading)")
    ∧ (∀ t : GTask, t.filename = none → groupByFileName t = jstr "Unknown Location")
    ∧ (∀ t : GTask,
        ([groupByStatus t].length = 1 ∧ [groupByFileName t].length = 1
          ∧ [groupByHeading t].length = 1)) := by
  refine ⟨?_, ?_, ?_, ?_, ?_⟩
  · intro gs tasks h
    exact leafTaskCount_lower gs tasks h
  · refine ⟨[fun _ => [jstr "#tagA", jstr "#tagB"]],
      [⟨jstr "Todo", jstr "f.md", none, none⟩], ?_⟩
    decide
  · intro t h
    rcases h with h | h <;> simp [groupByHeading, h]
  · intro t h
    simp [groupByFileName, h]
  · intro t
    exact ⟨rfl, rfl, rfl⟩

/-- Witness for C8: six concrete tasks grouped by heading (with and without
headings) keep all six occurrences. -/
theorem claim_C8_grouping_fanout_invariant_witness :
    ([⟨jstr "Todo", jstr "a.md", some (jstr "a"), some (jstr "H1")⟩,
      ⟨jstr "Todo", jstr "a.md", some (jstr "a"), none⟩,
      ⟨jstr "Done", jstr "b.md", none, some (jstr "H2")⟩,
      ⟨jstr "Done", jstr "b.md", none, some []⟩,
      ⟨jstr "Todo", jstr "c.md", some (jstr "c"), some (jstr "H1")⟩,
      ⟨jstr "Todo", jstr "c.md", none, none⟩] : List GTask).length
      ≤ leafTaskCount [fun t => [groupByHeading t], fun t => [groupByFileName t]]
          [⟨jstr "Todo", jstr "a.md", some (jstr "a"), some (jstr "H1")⟩,
           ⟨jstr "Todo", jstr "a.md", some (jstr "a"), none⟩,
           ⟨jstr "Done", jstr "b.md", none, some (jstr "H2")⟩,
           ⟨jstr "Done", jstr "b.md", none, some []⟩,
           ⟨jstr "Todo", jstr "c.md", some (jstr "c"), some (jstr "H1")⟩,
           ⟨jstr "Todo", jstr "c.md", none, none⟩] :=
  claim_C8_grouping_fanout_invariant.1 _ _ (by
    intro g hg t
    rcases List.mem_cons.mp hg with rfl | hg
    · simp
    · rcases List.mem_cons.mp hg with rfl | hg
      · simp
      · simp at hg)

/-- Claim C5 counterexample: with two tasks whose status strings are
`%%2%%` and `%%10%%`, grouping by status and sorting the flattened pairs
with the source's comparator-less `sort()` puts `%%10%%` first — the
comparison is plain code-unit string order, not numeric-aware, so the
claimed order (`%%2%%` before `%%10%%`) does not hold. -/
theorem claim_C5_sorted_groups_counterexample :
    getSortedGroups (fun t => t.path)
        (groupPaths [fun t => [groupByStatus t]]
          [⟨jstr "%%2%%", jstr "t1.md", none, none⟩,
           ⟨jstr "%%10%%", jstr "t2.md", none, none⟩])
      = [([jstr "%%10%%"], [⟨jstr "%%10%%", jstr "t2.md", none, none⟩]),
         ([jstr "%%2%%"], [⟨jstr "%%2%%", jstr "t1.md", none, none⟩])] := by
  decide

/-- Claim C5 amended: `getSortedGroups` returns the flattened
`(groupNamePath, tasks)` pairs as a permutation of its input, sorted
(stably) by code-unit comparison of the entries' string conversion — the
group-name path joined with commas, followed by the task list's string —
which is plain alphabetical order, not numeric-aware: a path element
beginning `%%10%%` sorts before one beginning `%%2%%`. -/
theorem claim_C5_sorted_groups_amended :
    (∀ (τ : Type) (taskStr : τ → JStr) (entries : List (List JStr × List τ)),
        List.Perm (getSortedGroups taskStr entries) entries
        ∧ (getSortedGroups taskStr entries).Pairwise
            (fun a b => jstrLt (entryString taskStr b) (entryString taskStr a) = false))
    ∧ getSortedGroups (fun t : GTask => t.path)
          [([jstr "%%2%%"], [(⟨jstr "%%2%%", jstr "t1.md", none, none⟩ : GTask)]),
           ([jstr "%%10%%"], [⟨jstr "%%10%%", jstr "t2.md", none, none⟩])]
        = [([jstr "%%10%%"], [⟨jstr "%%10%%", jstr "t2.md", none, none⟩]),
           ([jstr "%%2%%"], [⟨jstr "%%2%%", jstr "t1.md", none, none⟩])] := by
  constructor
  · intro τ taskStr entries
    rw [getSortedGroups]
    refine ⟨sortByLt_perm _ _, ?_⟩
    exact sortByLt_pairwise
      (fun a b => jstrLt (entryString taskStr a) (entryString taskStr b))
      (fun a b h => jstrLt_asymm _ _ h)
      (fun a b c h1 h2 => jstrLt_trans _ _ _ h1 h2) entries
  · decide

/-!
## Query instruction language

The `Query` class, `FilterParser` and `BooleanField` are not under src/ —
only their tests are — so this part is modelled from the spec (§4.1, §4.2,
§4.4), restricted to a representative subset of the instruction families
those tests exercise: status (`done` / `not done`, from
src/unnamed/part_013's `StatusField`), description text search (from
src/unnamed/part_010's `TextField`), the start/scheduled/due date
comparisons (from src/unnamed/part_013's `DateField`, with an ISO-date
subset of the date expression language), `filter by function`,
`sort by status`, `group by status`, `limit`, `ignore global query`,
`explain`, and fully parenthesised boolean combinations.  Keyword matching
is case-insensitive (decided on the lower-cased line); free-text payloads
are captured from the original line, as the case-insensitive field regular
expressions do.
-/

/-- A compiled filter: the first-order syntax of the modelled filters,
evaluated by `evalFilter`. -/
inductive FilterAst : Type where
  | statusDone
  | statusNotDone
  | descIncludes (text : JStr)
  | descNotIncludes (text : JStr)
  | startsCmp (op : DateOp) (d : Nat)
  | scheduledCmp (op : DateOp) (d : Nat)
  | dueCmp (op : DateOp) (d : Nat)
  | byFunction (expr : JStr)
  | andF (a b : FilterAst)
  | orF (a b : FilterAst)
  | xorF (a b : FilterAst)
  | notF (a : FilterAst)
deriving DecidableEq, Repr

/-- One parsed instruction line. -/
inductive Instr : Type where
  | filterInstr (f : FilterAst)
  | sortByStatus
  | groupByStatusInstr
  | limitTo (n : Nat)
  | ignoreGlobalQueryInstr
  | explainInstr
deriving DecidableEq, Repr

/-- `TextField.stringIncludesCaseInsensitive` (src/unnamed/part_010). -/
def stringIncludesCaseInsensitive (haystack needle : JStr) : Bool :=
  containsSub (toLowerL needle) (toLowerL haystack)

/-- Evaluate a compiled filter on a task.  The custom-function evaluator
`ev` is the injected expression-evaluation capability of spec §9; any
exception it throws is an `Except.error` carrying the message.  Boolean
combinators short-circuit left to right and propagate the first error. -/
def evalFilter (ev : JStr → QTask → Except JStr Bool) :
    FilterAst → QTask → Except JStr Bool
  | .statusDone, t => .ok (decide (t.status = jstr "Done"))
  | .statusNotDone, t => .ok (!decide (t.status = jstr "Done"))
  | .descIncludes s, t => .ok (stringIncludesCaseInsensitive t.description s)
  | .descNotIncludes s, t => .ok (!stringIncludesCaseInsensitive t.description s)
  | .startsCmp op d, t => .ok (startsDateFilter op d t)
  | .scheduledCmp op d, t => .ok (scheduledDateFilter op d t)
  | .dueCmp op d, t => .ok (dueDateFilter op d t)
  | .byFunction e, t => ev e t
  | .andF a b, t =>
    match evalFilter ev a t with
    | .error e => .error e
    | .ok va => if va then evalFilter ev b t else .ok false
  | .orF a b, t =>
    match evalFilter ev a t with
    | .error e => .error e
    | .ok va => if va then .ok true else evalFilter ev b t
  | .xorF a b, t =>
    match evalFilter ev a t with
    | .error e => .error e
    | .ok va =>
      match evalFilter ev b t with
      | .error e => .error e
      | .ok vb => .ok (va != vb)
  | .notF a, t =>
    match evalFilter ev a t with
    | .error e => .error e
    | .ok va => .ok (!va)

/-- Parse a `YYYY-MM-DD` date into its day-ordered numeral (the modelled
subset of the date-expression language; `chrono` date parsing is
case-insensitive, so this reads the lower-cased text). -/
def parseIsoDate : JStr → Option Nat
  | [y1, y2, y3, y4, h1, m1, m2, h2, d1, d2] =>
    if h1 = '-' && h2 = '-' && y1.isDigit && y2.isDigit && y3.isDigit && y4.isDigit
        && m1.isDigit && m2.isDigit && d1.isDigit && d2.isDigit then
      some (((((y1.toNat - 48) * 10 + (y2.toNat - 48)) * 10 + (y3.toNat - 48)) * 10
              + (y4.toNat - 48)) * 10000
            + ((m1.toNat - 48) * 10 + (m2.toNat - 48)) * 100
            + ((d1.toNat - 48) * 10 + (d2.toNat - 48)))
    else none
  | _ => none

/-- Parse the `(before|after|on)? <date>` tail of a `DateField`
instruction, from the lower-cased text. -/
def parseDateOpRest (restLow : JStr) : Option (DateOp × Nat) :=
  if hasPrefixL (jstr "before ") restLow then
    (parseIsoDate (restLow.drop 7)).map (fun d => (.before, d))
  else if hasPrefixL (jstr "after ") restLow then
    (parseIsoDate (restLow.drop 6)).map (fun d => (.after, d))
  else if hasPrefixL (jstr "on ") restLow then
    (parseIsoDate (restLow.drop 3)).map (fun d => (.onDate, d))
  else
    (parseIsoDate restLow).map (fun d => (.onDate, d))

/-- Digits-to-number. -/
def natOfDigits (digits : JStr) : Nat :=
  digits.foldl (fun n c => n * 10 + (c.toNat - 48)) 0

/-- Parse the tail of a `limit [to] <n> [tasks]` instruction, from the
lower-cased text. -/
def parseLimitRest (restLow : JStr) : Option Nat :=
  let r := if hasPrefixL (jstr "to ") restLow then restLow.drop 3 else restLow
  let digits := r.takeWhile Char.isDigit
  let rest2 := r.dropWhile Char.isDigit
  if digits ≠ [] && (rest2 = [] || rest2 = jstr " tasks" || rest2 = jstr " task") then
    some (natOfDigits digits)
  else none

/-- The field-registry dispatch for one single-field instruction line:
keyword recognition is decided on the lower-cased line, free-text payloads
(description search text, custom-function expression) are taken verbatim
from the original line.  Boolean combination lines are not handled here
(see `parseFilterFuel`). -/
def parseCore (line : JStr) : Option Instr :=
  let low := toLowerL line
  if low = jstr "done" then some (.filterInstr .statusDone)
  else if low = jstr "not done" then some (.filterInstr .statusNotDone)
  else if hasPrefixL (jstr "description includes ") low then
    some (.filterInstr (.descIncludes (line.drop 21)))
  else if hasPrefixL (jstr "description does not include ") low then
    some (.filterInstr (.descNotIncludes (line.drop 29)))
  else if hasPrefixL (jstr "filter by function ") low then
    some (.filterInstr (.byFunction (line.drop 19)))
  else if hasPrefixL (jstr "starts ") low then
    (parseDateOpRest (low.drop 7)).map (fun p => .filterInstr (.startsCmp p.1 p.2))
  else if hasPrefixL (jstr "scheduled ") low then
    (parseDateOpRest (low.drop 10)).map (fun p => .filterInstr (.scheduledCmp p.1 p.2))
  else if hasPrefixL (jstr "due ") low then
    (parseDateOpRest (low.drop 4)).map (fun p => .filterInstr (.dueCmp p.1 p.2))
  else if low = jstr "sort by status" then some .sortByStatus
  else if low = jstr "group by status" then some .groupByStatusInstr
  else if hasPrefixL (jstr "limit ") low then
    (parseLimitRest (low.drop 6)).map .limitTo
  else if low = jstr "ignore global query" then some .ignoreGlobalQueryInstr
  else if low = jstr "explain" then some .explainInstr
  else none

/-!
## Boolean expression evaluator (spec §4.2)

Modelled from the spec: `BooleanField` is not under src/.  A boolean line
is tokenized preserving bracket nesting depth into parenthesised operands
and bare operator words; the token list must be one combinator chain whose
operands are all explicitly parenthesised (with an optional leading `NOT`
and `AND NOT` / `OR NOT` forms); each leaf is compiled through the
instruction parser.  Operator keywords are upper case, as the repository's
query samples use them.
-/

/-- A top-level token of a boolean instruction line. -/
inductive BTok : Type where
  | operandTok (s : JStr)
  | wordTok (w : JStr)
deriving DecidableEq, Repr

/-- Tokenizer mode: gathering a bare word at the top level, or inside a
parenthesised operand at some nesting depth (accumulators reversed). -/
inductive TokMode : Type where
  | topMode (wordAcc : JStr)
  | opMode (depth : Nat) (acc : JStr)
  | badMode
deriving DecidableEq, Repr

/-- Tokenizer state: emitted tokens (reversed) and the current mode. -/
structure TokSt : Type where
  toks : List BTok
  mode : TokMode
deriving DecidableEq, Repr

/-- Emit a gathered word, if non-empty. -/
def flushWord (toks : List BTok) (wordAcc : JStr) : List BTok :=
  if wordAcc = [] then toks else .wordTok wordAcc.reverse :: toks

/-- One tokenizer step. -/
def tokStep (st : TokSt) (c : Char) : TokSt :=
  match st.mode with
  | .topMode w =>
    if c = '(' then { toks := flushWord st.toks w, mode := .opMode 0 [] }
    else if c = ')' then { toks := st.toks, mode := .badMode }
    else if c = ' ' then { toks := flushWord st.toks w, mode := .topMode [] }
    else { toks := st.toks, mode := .topMode (c :: w) }
  | .opMode depth acc =>
    if c = '(' then { toks := st.toks, mode := .opMode (depth + 1) (c :: acc) }
    else if c = ')' then
      if depth = 0 then { toks := .operandTok acc.reverse :: st.toks, mode := .topMode [] }
      else { toks := st.toks, mode := .opMode (depth - 1) (c :: acc) }
    else { toks := st.toks, mode := .opMode depth (c :: acc) }
  | .badMode => st

/-- Tokenize a boolean instruction line; fails on stray or unterminated
brackets (the `unterminated boolean expression` error of spec §4.4). -/
def tokenizeBool (s : JStr) : Option (List BTok) :=
  let final := s.foldl tokStep { toks := [], mode := .topMode [] }
  match final.mode with
  | .topMode w => some (flushWord final.toks w).reverse
  | _ => none

/-- Build one binary boolean combinator from its operator word. -/
def mkBoolOp (w : JStr) (a b : FilterAst) : Option FilterAst :=
  if w = jstr "AND" then some (.andF a b)
  else if w = jstr "OR" then some (.orF a b)
  else if w = jstr "XOR" then some (.xorF a b)
  else none

/-- Bracket-depth scan: final depth of a balanced-so-far string, `none` as
soon as a close bracket underflows. -/
def scanDepth (k : Nat) : JStr → Option Nat
  | [] => some k
  | c :: cs =>
    if c = '(' then scanDepth (k + 1) cs
    else if c = ')' then
      match k with
      | 0 => none
      | j + 1 => scanDepth j cs
    else scanDepth k cs

/-- A string whose round brackets are balanced. -/
def balancedParens (s : JStr) : Bool := decide (scanDepth 0 s = some 0)

mutual

/-- The full instruction-parser entry for filter lines, with fuel bounding
the boolean nesting: a single-field line parses through `parseCore`, a
line in brackets parses as a boolean combination whose leaves re-enter the
parser. -/
def parseFilterFuel : Nat → JStr → Option FilterAst
  | _, [] => none
  | 0, _ :: _ => none
  | fuel + 1, c :: cs =>
    match parseCore (c :: cs) with
    | some (.filterInstr f) => some f
    | some _ => none
    | none =>
      if c = '(' then
        match tokenizeBool (c :: cs) with
        | none => none
        | some toks => parseBoolToksFuel fuel toks
      else none

/-- Parse a tokenized boolean line: an optional leading `NOT` and a first
parenthesised operand, then the combinator chain. -/
def parseBoolToksFuel : Nat → List BTok → Option FilterAst
  | 0, _ => none
  | fuel + 1, .wordTok n :: .operandTok o :: rest =>
    if n = jstr "NOT" then
      match parseFilterFuel fuel o with
      | none => none
      | some l => parseBoolChainFuel fuel (.notF l) rest
    else none
  | fuel + 1, .operandTok o :: rest =>
    match parseFilterFuel fuel o with
    | none => none
    | some l => parseBoolChainFuel fuel l rest
  | _ + 1, _ => none

/-- Parse the remainder of a combinator chain, folding left. -/
def parseBoolChainFuel : Nat → FilterAst → List BTok → Option FilterAst
  | 0, _, _ => none
  | _ + 1, acc, [] => some acc
  | fuel + 1, acc, .wordTok w :: .wordTok n :: .operandTok o :: rest =>
    if n = jstr "NOT" && (w = jstr "AND" || w = jstr "OR") then
      match parseFilterFuel fuel o with
      | none => none
      | some l =>
        match mkBoolOp w acc (.notF l) with
        | none => none
        | some acc2 => parseBoolChainFuel fuel acc2 rest
    else none
  | fuel + 1, acc, .wordTok w :: .operandTok o :: rest =>
    match parseFilterFuel fuel o with
    | none => none
    | some l =>
      match mkBoolOp w acc l with
      | none => none
      | some acc2 => parseBoolChainFuel fuel acc2 rest
  | _ + 1, _, _ => none

end

/-- Parse one filter instruction line (ample fuel for its length). -/
def parseFilterInstr (line : JStr) : Option FilterAst :=
  parseFilterFuel (2 * line.length + 2) line

/-- Parse one instruction line of any the modelled families. -/
def parseInstr (line : JStr) : Option Instr :=
  match parseCore line with
  | some i => some i
  | none => (parseFilterInstr line).map .filterInstr

/-!
## Placeholder expansion (spec §4.3)

Modelled from the spec: `ExpandPlaceholders` / `QueryContext` are not under
src/ (only their tests are).  A `\x7b\x7b dotted.path \x7d\x7d` token is
resolved against the read-only context built from the query's file path;
an unknown dotted path raises `Unknown property: <path>`.
-/

/-- Placeholder scanner mode. -/
inductive PHMode : Type where
  | normalPH
  | sawOpenPH
  | inNamePH (acc : JStr)
  | sawClosePH (acc : JStr)
  | failedPH (msg : JStr)
deriving DecidableEq, Repr

/-- Placeholder scanner state: expanded output so far (reversed) and mode. -/
structure PHSt : Type where
  out : JStr
  mode : PHMode
deriving DecidableEq, Repr

/-- Look a dotted property path up in the context. -/
def lookupProp (ctx : List (JStr × JStr)) (name : JStr) : Option JStr :=
  match ctx.find? (fun e => decide (e.1 = name)) with
  | some e => some e.2
  | none => none

/-- One scanner step over the instruction text. -/
def phStep (ctx : List (JStr × JStr)) (st : PHSt) (c : Char) : PHSt :=
  match st.mode with
  | .failedPH _ => st
  | .normalPH =>
    if c = '\x7b' then { out := st.out, mode := .sawOpenPH }
    else { out := c :: st.out, mode := .normalPH }
  | .sawOpenPH =>
    if c = '\x7b' then { out := st.out, mode := .inNamePH [] }
    else { out := c :: '\x7b' :: st.out, mode := .normalPH }
  | .inNamePH acc =>
    if c = '\x7d' then { out := st.out, mode := .sawClosePH acc }
    else { out := st.out, mode := .inNamePH (c :: acc) }
  | .sawClosePH acc =>
    if c = '\x7d' then
      match lookupProp ctx (trimL acc.reverse) with
      | some v => { out := v.reverse ++ st.out, mode := .normalPH }
      | none =>
        { out := st.out,
          mode := .failedPH (jstr "Unknown property: " ++ trimL acc.reverse) }
    else { out := st.out, mode := .inNamePH (c :: '\x7d' :: acc) }

/-- Expand the placeholders of one instruction line against a context. -/
def expandPlaceholdersLine (ctx : List (JStr × JStr)) (line : JStr) :
    Except JStr JStr :=
  let final := line.foldl (phStep ctx) { out := [], mode := .normalPH }
  match final.mode with
  | .normalPH => .ok final.out.reverse
  | .sawOpenPH => .ok ('\x7b' :: final.out).reverse
  | .failedPH m => .error m
  | .inNamePH _ => .error (jstr "Unclosed tag")
  | .sawClosePH _ => .error (jstr "Unclosed tag")

/-- The file name of a path: everything after the last slash. -/
def filenameOfPath (path : JStr) : JStr :=
  ((path.reverse.takeWhile (fun c => decide (c ≠ '/')))).reverse

/-- The folder of a path: everything up to and including the last slash. -/
def folderOfPath (path : JStr) : JStr :=
  path.take (path.length - (filenameOfPath path).length)

/-- `makeQueryContext`: the read-only placeholder context built from the
query's file path. -/
def makeQueryContext (path : JStr) : List (JStr × JStr) :=
  [(jstr "query.file.path", path),
   (jstr "query.file.filename", filenameOfPath path),
   (jstr "query.file.folder", folderOfPath path)]

/-!
## Query (spec §4.4)
-/

/-- A `sort by` instruction's compiled sorter (modelled subset). -/
inductive SortK : Type where
  | byStatusSort
deriving DecidableEq, Repr

/-- A `group by` instruction's compiled grouper (modelled subset). -/
inductive GroupK : Type where
  | byStatusGroup
deriving DecidableEq, Repr

/-- The compiled query: source and path are stored verbatim; filters,
sorters and groupers accumulate in declaration order; a later `limit`
overwrites an earlier one; `error` holds the first fatal parse failure. -/
structure Query : Type where
  source : JStr
  filePath : Option JStr
  filters : List FilterAst
  sorting : List SortK
  grouping : List GroupK
  taskLimit : Option Nat
  ignoreGlobalQuery : Bool
  error : Option JStr
deriving DecidableEq, Repr

/-- The `no file path supplied` error of spec §4.3, with the message the
repository's tests pin. -/
def noPathErrorMsg (source : JStr) : JStr :=
  jstr "The query looks like it contains a placeholder, with \"\x7b\x7b\" and \"\x7d\x7d\"\nbut no file path has been supplied, so cannot expand placeholder values.\nThe query is:\n"
    ++ source

/-- The placeholder-expansion error a `Query` reports, wrapping the inner
`Unknown property: <path>` message and naming the problem line. -/
def placeholderErrorMsg (inner line : JStr) : JStr :=
  jstr "There was an error expanding one or more placeholders.\n\nThe error message was:\n    "
    ++ inner ++ jstr "\n\nThe problem is in:\n    " ++ line

/-- The unrecognized-instruction error, naming the offending line. -/
def unknownInstructionMsg (line : JStr) : JStr :=
  jstr "do not understand query\nProblem line: \"" ++ line ++ jstr "\""

/-- Record one parsed instruction on the accumulating query. -/
def applyInstr (q : Query) (i : Instr) : Query :=
  match i with
  | .filterInstr f => { q with filters := q.filters ++ [f] }
  | .sortByStatus => { q with sorting := q.sorting ++ [.byStatusSort] }
  | .groupByStatusInstr => { q with grouping := q.grouping ++ [.byStatusGroup] }
  | .limitTo n => { q with taskLimit := some n }
  | .ignoreGlobalQueryInstr => { q with ignoreGlobalQuery := true }
  | .explainInstr => q

/-- Record a parse error; the first error wins. -/
def setQueryError (q : Query) (msg : JStr) : Query :=
  match q.error with
  | some _ => q
  | none => { q with error := some msg }

/-- Process one raw source line: trim it, skip blanks and `#`-comments,
expand placeholders when a file path is known, then classify it. -/
def parseLine (q : Query) (rawLine : JStr) : Query :=
  let line := trimL rawLine
  if line = [] then q
  else if hasPrefixL (jstr "#") line then q
  else
    let expanded :=
      match q.filePath with
      | none => Except.ok line
      | some p => expandPlaceholdersLine (makeQueryContext p) line
    match expanded with
    | .error e => setQueryError q (placeholderErrorMsg e line)
    | .ok line2 =>
      match parseInstr line2 with
      | some i => applyInstr q i
      | none => setQueryError q (unknownInstructionMsg line)

/-- Split source text into lines. -/
def splitLinesAux : JStr → JStr → List JStr
  | [], acc => [acc.reverse]
  | c :: cs, acc =>
    if c = '\n' then acc.reverse :: splitLinesAux cs []
    else splitLinesAux cs (c :: acc)

/-- Split source text into lines at newline characters. -/
def splitLines (s : JStr) : List JStr := splitLinesAux s []

/-- `new Query({ source }, path)`: before parsing any line, a source that
contains a placeholder while no file path was supplied fails wholesale;
otherwise the lines are classified and accumulated in order. -/
def parseQuery (source : JStr) (path : Option JStr) : Query :=
  let base : Query := ⟨source, path, [], [], [], none, false, none⟩
  if decide (path = none) && containsSub (jstr "\x7b\x7b") source
      && containsSub (jstr "\x7d\x7d") source then
    { base with error := some (noPathErrorMsg source) }
  else
    (splitLines source).foldl parseLine base

/-!
## Search pipeline (spec §4.4 `applyToTasks`)
-/

/-- `StatusField.comparator` (src/unnamed/part_013) /
`Sort.compareByStatus` (src/src/Sort.ts): larger status strings sort
first, so `Todo` precedes `Done`. -/
def statusComparatorQ (a b : QTask) : Int :=
  if jstrLt a.status b.status then 1
  else if jstrLt b.status a.status then -1
  else 0

/-- The comparator of one compiled sorter. -/
def sorterCmp : SortK → QTask → QTask → Int
  | .byStatusSort => statusComparatorQ

/-- `Sort.makeCompositeComparator`: first non-zero comparator wins. -/
def compositeCmp (cs : List (QTask → QTask → Int)) (a b : QTask) : Int :=
  match cs with
  | [] => 0
  | c :: rest =>
    let r := c a b
    if r = 0 then compositeCmp rest a b else r

/-- The composite stable sort of the declared `sort by` lines; with no
sort lines the comparator is constantly zero and stability keeps the
insertion order. -/
def sortTasksQ (sorting : List SortK) (tasks : List QTask) : List QTask :=
  sortByLt (fun a b => decide (compositeCmp (sorting.map sorterCmp) a b < 0)) tasks

/-- `Group.groupByStatus` wrapped as a name-list grouper: one name, the
task's status string. -/
def grouperFnQ : GroupK → QTask → List JStr
  | .byStatusGroup => fun t => [t.status]

/-- Stand-in for `Task.toString` in the group-entry sort key. -/
def qtaskStr (t : QTask) : JStr := t.description

/-- Build the ordered task groups of a query run: the grouping tree on the
surviving tasks, flattened and sorted. -/
def buildQueryGroups (grouping : List GroupK) (tasks : List QTask) :
    List (List JStr × List QTask) :=
  getSortedGroups qtaskStr (groupPaths (grouping.map grouperFnQ) tasks)

/-- The result of one query run. -/
structure QueryResult : Type where
  groups : List (List JStr × List QTask)
  totalTasksCount : Nat
  totalTasksCountBeforeLimit : Nat
  searchErrorMessage : Option JStr
deriving DecidableEq, Repr

/-- The search-failure message format of spec §7. -/
def searchFailedMsg (msg : JStr) : JStr :=
  jstr "Error: Search failed.\nThe error message was:\n    \"" ++ msg ++ jstr "\""

/-- Run one filter over the task list in order (`Array.prototype.filter`);
the first evaluation error aborts. -/
def applyOneFilter (ev : JStr → QTask → Except JStr Bool) (f : FilterAst) :
    List QTask → Except JStr (List QTask)
  | [] => .ok []
  | t :: ts =>
    match evalFilter ev f t with
    | .error e => .error e
    | .ok b =>
      match applyOneFilter ev f ts with
      | .error e => .error e
      | .ok rest => .ok (if b then t :: rest else rest)

/-- Apply all filters as a logical AND in declared order, each filter over
the previous filter's survivors. -/
def runFilters (ev : JStr → QTask → Except JStr Bool) :
    List FilterAst → List QTask → Except JStr (List QTask)
  | [], tasks => .ok tasks
  | f :: fs, tasks =>
    match applyOneFilter ev f tasks with
    | .error e => .error e
    | .ok ts => runFilters ev fs ts

/-- Truncate to the global task limit, when one was declared. -/
def applyLimit (lim : Option Nat) (tasks : List QTask) : List QTask :=
  match lim with
  | none => tasks
  | some n => tasks.take n

/-- `Query.applyQueryToTasks`: (1) a parse error short-circuits; (2) filter;
(3) stable sort; (4) record the pre-limit count; (5) truncate to the global
limit; (6) group the surviving tasks.  An exception thrown during the
search is caught and becomes `searchErrorMessage`. -/
def applyQueryToTasks (ev : JStr → QTask → Except JStr Bool) (q : Query)
    (tasks : List QTask) : QueryResult :=
  match q.error with
  | some e => ⟨[], 0, 0, some e⟩
  | none =>
    match runFilters ev q.filters tasks with
    | .error msg => ⟨[], 0, 0, some (searchFailedMsg msg)⟩
    | .ok matched =>
      let sorted := sortTasksQ q.sorting matched
      let limited := applyLimit q.taskLimit sorted
      ⟨buildQueryGroups q.grouping limited, limited.length, sorted.length, none⟩

/-- Modelled from the spec: the injected sandboxed expression evaluator
(spec §9) is host JavaScript and not under src/.  It knows the expression
`task.isDone`; any other expression fails as JavaScript does on an
undefined identifier, naming the expression's leading identifier — the
behaviour the repository's error-handling test pins for `wibble` and
`WIBBLE`. -/
def jsFunctionEval (expr : JStr) (t : QTask) : Except JStr Bool :=
  if expr = jstr "task.isDone" then .ok (decide (t.status = jstr "Done"))
  else
    .error (jstr "ReferenceError: " ++ expr.takeWhile (fun c => decide (c ≠ '.'))
      ++ jstr " is not defined")

/-- `Query.append` (spec §4.4): combine by concatenating the source texts
with a newline and re-parsing, not by merging compiled lists. -/
def queryAppend (q1 q2 : Query) : Query :=
  parseQuery (q1.source ++ jstr "\n" ++ q2.source) q2.filePath

/-- `getQueryForQueryRenderer` (src/src/lib/QueryRendererHelper.ts): the
tasks-block query alone when it says `ignore global query`, else the
global query's query appended with the block query. -/
def getQueryForQueryRenderer (blockSource globalSource : JStr)
    (path : Option JStr) : Query :=
  let tasksBlockQuery := parseQuery blockSource path
  if tasksBlockQuery.ignoreGlobalQuery then tasksBlockQuery
  else queryAppend (parseQuery globalSource none) tasksBlockQuery

-- Helper lemmas about line splitting and trimming.

theorem splitLinesAux_no_newline :
    ∀ (s acc : JStr), (∀ c ∈ s, c ≠ '\n') →
      splitLinesAux s acc = [acc.reverse ++ s] := by
  intro s
  induction s with
  | nil => intro acc _; simp [splitLinesAux]
  | cons c cs ih =>
    intro acc h
    have hc : c ≠ '\n' := h c (List.mem_cons_self _ _)
    simp only [splitLinesAux, if_neg hc]
    rw [ih (c :: acc) (fun d hd => h d (List.mem_cons_of_mem _ hd))]
    simp

theorem splitLines_single (s : JStr) (h : ∀ c ∈ s, c ≠ '\n') :
    splitLines s = [s] := by
  rw [splitLines, splitLinesAux_no_newline s [] h]
  simp

theorem dropLeadingSpaces_id (s : JStr) (h : ∀ c ∈ s, ¬ isSpaceChar c = true) :
    dropLeadingSpaces s = s := by
  cases s with
  | nil => rfl
  | cons c cs =>
    have := h c (List.mem_cons_self _ _)
    simp only [dropLeadingSpaces]
    rw [if_neg (by simpa using this)]

theorem trimL_id_of_edges (s : JStr)
    (h1 : ∀ c, s.head? = some c → ¬ isSpaceChar c = true)
    (h2 : ∀ c, s.reverse.head? = some c → ¬ isSpaceChar c = true) :
    trimL s = s := by
  rw [trimL]
  have hrev : dropLeadingSpaces s.reverse = s.reverse := by
    cases hr : s.reverse with
    | nil => rfl
    | cons c cs =>
      simp only [dropLeadingSpaces]
      rw [if_neg (by simpa using h2 c (by rw [hr]; rfl))]
  rw [hrev, List.reverse_reverse]
  cases hs : s with
  | nil => rfl
  | cons c cs =>
    simp only [dropLeadingSpaces]
    rw [if_neg (by simpa using h1 c (by rw [hs]; rfl))]

theorem trimL_id_no_spaces (s : JStr) (h : ∀ c ∈ s, ¬ isSpaceChar c = true) :
    trimL s = s := by
  refine trimL_id_of_edges s ?_ ?_
  · intro c hc
    cases s with
    | nil => exact Option.noConfusion hc
    | cons d ds =>
      injection hc with hc
      exact hc ▸ h d (List.mem_cons_self _ _)
  · intro c hc
    have : c ∈ s.reverse := by
      cases hr : s.reverse with
      | nil => rw [hr] at hc; exact Option.noConfusion hc
      | cons d ds =>
        rw [hr] at hc
        injection hc with hc
        exact hc ▸ List.mem_cons_self _ _
    exact h c (List.mem_reverse.mp this)

theorem containsSub_char_mem (x : Char) (xs s : JStr)
    (h : containsSub (x :: xs) s = true) : x ∈ s := by
  induction s with
  | nil => simp [containsSub, hasPrefixL] at h
  | cons c cs ih =>
    simp only [containsSub, Bool.or_eq_true] at h
    rcases h with h | h
    · simp only [hasPrefixL, Bool.and_eq_true, decide_eq_true_eq] at h
      exact h.1 ▸ List.mem_cons_self _ _
    · exact List.mem_cons_of_mem _ (ih h)

-- Source and path are stored verbatim by parsing.

theorem setQueryError_preserves_source_path (q : Query) (msg : JStr) :
    (setQueryError q msg).source = q.source
    ∧ (setQueryError q msg).filePath = q.filePath := by
  rw [setQueryError]
  split <;> exact ⟨rfl, rfl⟩

theorem applyInstr_preserves_source_path (q : Query) (i : Instr) :
    (applyInstr q i).source = q.source ∧ (applyInstr q i).filePath = q.filePath := by
  cases i <;> exact ⟨rfl, rfl⟩

theorem parseLine_preserves_source_path (q : Query) (l : JStr) :
    (parseLine q l).source = q.source ∧ (parseLine q l).filePath = q.filePath := by
  rw [parseLine]
  by_cases h1 : trimL l = []
  · rw [if_pos h1]; exact ⟨rfl, rfl⟩
  rw [if_neg h1]
  by_cases h2 : hasPrefixL (jstr "#") (trimL l) = true
  · rw [if_pos h2]; exact ⟨rfl, rfl⟩
  rw [if_neg h2]
  cases hq : q.filePath with
  | none =>
    simp only [hq]
    cases hpi : parseInstr (trimL l) with
    | none =>
      simp only [hpi]
      exact ⟨(setQueryError_preserves_source_path _ _).1,
        (setQueryError_preserves_source_path _ _).2.trans hq⟩
    | some i =>
      simp only [hpi]
      exact ⟨(applyInstr_preserves_source_path _ _).1,
        (applyInstr_preserves_source_path _ _).2.trans hq⟩
  | some p =>
    simp only [hq]
    cases hex : expandPlaceholdersLine (makeQueryContext p) (trimL l) with
    | error e =>
      simp only [hex]
      exact ⟨(setQueryError_preserves_source_path _ _).1,
        (setQueryError_preserves_source_path _ _).2.trans hq⟩
    | ok line2 =>
      simp only [hex]
      cases hpi : parseInstr line2 with
      | none =>
        simp only [hpi]
        exact ⟨(setQueryError_preserves_source_path _ _).1,
          (setQueryError_preserves_source_path _ _).2.trans hq⟩
      | some i =>
        simp only [hpi]
        exact ⟨(applyInstr_preserves_source_path _ _).1,
          (applyInstr_preserves_source_path _ _).2.trans hq⟩

theorem foldl_parseLine_preserves_source_path :
    ∀ (lines : List JStr) (q : Query),
      (lines.foldl parseLine q).source = q.source
      ∧ (lines.foldl parseLine q).filePath = q.filePath := by
  intro lines
  induction lines with
  | nil => intro q; exact ⟨rfl, rfl⟩
  | cons l ls ih =>
    intro q
    have h1 := parseLine_preserves_source_path q l
    have h2 := ih (parseLine q l)
    exact ⟨h2.1.trans h1.1, h2.2.trans h1.2⟩

theorem parseQuery_source (s : JStr) (p : Option JStr) :
    (parseQuery s p).source = s := by
  rw [parseQuery]
  split
  · rfl
  · exact (foldl_parseLine_preserves_source_path (splitLines s) _).1

theorem parseQuery_filePath (s : JStr) (p : Option JStr) :
    (parseQuery s p).filePath = p := by
  rw [parseQuery]
  split
  · rfl
  · exact (foldl_parseLine_preserves_source_path (splitLines s) _).2

/-- Claim C1: with no parse error, `applyQueryToTasks` filters, stable-sorts,
records the pre-limit count, truncates the flat sorted sequence to the
global limit and only then groups, so every task of every group survived
the limit and `totalTasksCount` is the post-limit count; and in the
Scenario D instance — `sort by status` / `group by status` / `limit 2`
over six tasks (two done, four todo in file order) — the result is one
`Todo` group holding exactly the first two todo tasks in their original
relative order, with `totalTasksCountBeforeLimit = 6`. -/
theorem claim_C1_limit_after_sort_before_grouping :
    (∀ (ev : JStr → QTask → Except JStr Bool) (q : Query)
        (tasks matched : List QTask),
        q.error = none →
        runFilters ev q.filters tasks = .ok matched →
        applyQueryToTasks ev q tasks
            = ⟨buildQueryGroups q.grouping
                  (applyLimit q.taskLimit (sortTasksQ q.sorting matched)),
                (applyLimit q.taskLimit (sortTasksQ q.sorting matched)).length,
                (sortTasksQ q.sorting matched).length,
                none⟩
        ∧ ∀ p ∈ (applyQueryToTasks ev q tasks).groups, ∀ t ∈ p.2,
            t ∈ applyLimit q.taskLimit (sortTasksQ q.sorting matched))
    ∧ applyQueryToTasks jsFunctionEval
        (parseQuery (jstr "sort by status\ngroup by status\nlimit 2") none)
        [⟨jstr "Done", jstr "Task 1", jstr "f.md", none, none, none⟩,
         ⟨jstr "Done", jstr "Task 2", jstr "f.md", none, none, none⟩,
         ⟨jstr "Todo", jstr "Task 3", jstr "f.md", none, none, none⟩,
         ⟨jstr "Todo", jstr "Task 4", jstr "f.md", none, none, none⟩,
         ⟨jstr "Todo", jstr "Task 5", jstr "f.md", none, none, none⟩,
         ⟨jstr "Todo", jstr "Task 6", jstr "f.md", none, none, none⟩]
      = ⟨[([jstr "Todo"],
           [⟨jstr "Todo", jstr "Task 3", jstr "f.md", none, none, none⟩,
            ⟨jstr "Todo", jstr "Task 4", jstr "f.md", none, none, none⟩])],
         2, 6, none⟩ := by
  constructor
  · intro ev q tasks matched herr hrun
    have happ : applyQueryToTasks ev q tasks
        = ⟨buildQueryGroups q.grouping
              (applyLimit q.taskLimit (sortTasksQ q.sorting matched)),
            (applyLimit q.taskLimit (sortTasksQ q.sorting matched)).length,
            (sortTasksQ q.sorting matched).length,
            none⟩ := by
      rw [applyQueryToTasks]
      rw [herr]
      rw [hrun]
    refine ⟨happ, ?_⟩
    rw [happ]
    intro p hp t ht
    simp only [buildQueryGroups, getSortedGroups] at hp
    have hp2 := (sortByLt_perm _ _).mem_iff.mp hp
    exact groupPaths_mem _ _ p hp2 t ht
  · decide

/-- Witness for C1 at a two-task query with `sort by status` and `limit 1`. -/
theorem claim_C1_limit_after_sort_before_grouping_witness :
    applyQueryToTasks jsFunctionEval
        (parseQuery (jstr "sort by status\nlimit 1") none)
        [⟨jstr "Done", jstr "a", jstr "f.md", none, none, none⟩,
         ⟨jstr "Todo", jstr "b", jstr "f.md", none, none, none⟩]
      = ⟨[([], [⟨jstr "Todo", jstr "b", jstr "f.md", none, none, none⟩])],
         1, 2, none⟩ := by
  have h := (claim_C1_limit_after_sort_before_grouping.1 jsFunctionEval
      (parseQuery (jstr "sort by status\nlimit 1") none)
      [⟨jstr "Done", jstr "a", jstr "f.md", none, none, none⟩,
       ⟨jstr "Todo", jstr "b", jstr "f.md", none, none, none⟩]
      [⟨jstr "Done", jstr "a", jstr "f.md", none, none, none⟩,
       ⟨jstr "Todo", jstr "b", jstr "f.md", none, none, none⟩]
      (by decide) (by rfl)).1
  rw [h]
  decide

theorem parseQuery_function_line (expr : JStr)
    (htrim : trimL (jstr "filter by function " ++ expr) = jstr "filter by function " ++ expr)
    (hnl : ∀ c ∈ expr, c ≠ '\n')
    (hbr : ¬(containsSub (jstr "\x7b\x7b") (jstr "filter by function " ++ expr) = true
        ∧ containsSub (jstr "\x7d\x7d") (jstr "filter by function " ++ expr) = true)) :
    parseQuery (jstr "filter by function " ++ expr) none
      = ⟨jstr "filter by function " ++ expr, none, [.byFunction expr],
         [], [], none, false, none⟩ := by
  have hcond : (decide ((none : Option JStr) = none)
      && containsSub (jstr "\x7b\x7b") (jstr "filter by function " ++ expr)
      && containsSub (jstr "\x7d\x7d") (jstr "filter by function " ++ expr)) = false := by
    cases h1 : containsSub (jstr "\x7b\x7b") (jstr "filter by function " ++ expr) with
    | false => rfl
    | true =>
      cases h2 : containsSub (jstr "\x7d\x7d") (jstr "filter by function " ++ expr) with
      | false => rfl
      | true => exact absurd ⟨h1, h2⟩ hbr
  have hsplit : splitLines (jstr "filter by function " ++ expr)
      = [jstr "filter by function " ++ expr] := by
    refine splitLines_single _ ?_
    intro c hc
    rcases List.mem_append.mp hc with h | h
    · have hlit : ∀ c ∈ jstr "filter by function ", c ≠ '\n' := by decide
      exact hlit c h
    · exact hnl c h
  have hpl : parseLine
      (⟨jstr "filter by function " ++ expr, none, [], [], [], none, false, none⟩ : Query)
      (jstr "filter by function " ++ expr)
      = ⟨jstr "filter by function " ++ expr, none, [.byFunction expr],
         [], [], none, false, none⟩ := by
    rw [parseLine, htrim]
    rfl
  simp only [parseQuery]
  split
  · rename_i hcondTrue
    simp only [Bool.and_eq_true] at hcondTrue
    exact absurd ⟨hcondTrue.1.2, hcondTrue.2⟩ hbr
  · rw [hsplit]
    simp only [List.foldl_cons, List.foldl_nil]
    exact hpl

/-- Claim C2: a `filter by function` instruction parses with no error; when
evaluating the expression during a search throws, the exception is caught
and becomes `searchErrorMessage` in the exact
`Error: Search failed.\nThe error message was:\n    "<original message>"`
format, with the parse error still unset; and the same query value stays
valid for further searches — a later run whose evaluations succeed reports
no search error. -/
theorem claim_C2_search_exception_caught (expr : JStr)
    (htrim : trimL (jstr "filter by function " ++ expr) = jstr "filter by function " ++ expr)
    (hnl : ∀ c ∈ expr, c ≠ '\n')
    (hbr : ¬(containsSub (jstr "\x7b\x7b") (jstr "filter by function " ++ expr) = true
        ∧ containsSub (jstr "\x7d\x7d") (jstr "filter by function " ++ expr) = true)) :
    (parseQuery (jstr "filter by function " ++ expr) none).error = none
    ∧ (parseQuery (jstr "filter by function " ++ expr) none).filters
        = [.byFunction expr]
    ∧ (∀ (ev : JStr → QTask → Except JStr Bool) (tasks : List QTask) (msg : JStr),
        runFilters ev [FilterAst.byFunction expr] tasks = .error msg →
        applyQueryToTasks ev (parseQuery (jstr "filter by function " ++ expr) none) tasks
          = ⟨[], 0, 0, some (searchFailedMsg msg)⟩)
    ∧ (∀ (ev : JStr → QTask → Except JStr Bool) (tasks matched : List QTask),
        runFilters ev [FilterAst.byFunction expr] tasks = .ok matched →
        (applyQueryToTasks ev (parseQuery (jstr "filter by function " ++ expr) none)
            tasks).searchErrorMessage = none) := by
  have hq := parseQuery_function_line expr htrim hnl hbr
  refine ⟨by rw [hq], by rw [hq], ?_, ?_⟩
  · intro ev tasks msg hrun
    rw [hq, applyQueryToTasks]
    have hfl : (⟨jstr "filter by function " ++ expr, none, [FilterAst.byFunction expr],
        [], [], none, false, none⟩ : Query).filters = [FilterAst.byFunction expr] := rfl
    rw [hfl, hrun]
  · intro ev tasks matched hrun
    rw [hq, applyQueryToTasks]
    have hfl : (⟨jstr "filter by function " ++ expr, none, [FilterAst.byFunction expr],
        [], [], none, false, none⟩ : Query).filters = [FilterAst.byFunction expr] := rfl
    rw [hfl, hrun]

/-- Witness for C2 at the pinned `wibble` expression: the exact message the
repository's error-handling test expects, on a fully concrete task. -/
theorem claim_C2_search_exception_caught_witness :
    (parseQuery (jstr "filter by function wibble") none).error = none
    ∧ applyQueryToTasks jsFunctionEval (parseQuery (jstr "filter by function wibble") none)
        [⟨jstr "Todo", jstr "x", jstr "f.md", none, none, none⟩]
      = ⟨[], 0, 0,
         some (jstr "Error: Search failed.\nThe error message was:\n    \"ReferenceError: wibble is not defined\"")⟩ := by
  have hE : jstr "filter by function wibble" = jstr "filter by function " ++ jstr "wibble" :=
    rfl
  have h := claim_C2_search_exception_caught (jstr "wibble")
    (by decide) (by decide) (by decide)
  rw [hE]
  refine ⟨h.1, ?_⟩
  rw [h.2.2.1 jsFunctionEval
    [⟨jstr "Todo", jstr "x", jstr "f.md", none, none, none⟩]
    (jstr "ReferenceError: wibble is not defined") (by rfl)]
  rfl

/-- Claim C7: `getQueryForQueryRenderer` yields the query parsed from the
global source, a newline and the block source — `Query.append` re-parses
the concatenated sources — except when the block query says
`ignore global query`, in which case the result is the block query alone,
its source exactly the block source. -/
theorem claim_C7_global_query_combination
    (globalSource blockSource : JStr) (path : Option JStr) :
    ((parseQuery blockSource path).ignoreGlobalQuery = false →
      getQueryForQueryRenderer blockSource globalSource path
          = parseQuery (globalSource ++ jstr "\n" ++ blockSource) path
      ∧ (getQueryForQueryRenderer blockSource globalSource path).source
          = globalSource ++ jstr "\n" ++ blockSource)
    ∧ ((parseQuery blockSource path).ignoreGlobalQuery = true →
      getQueryForQueryRenderer blockSource globalSource path = parseQuery blockSource path
      ∧ (getQueryForQueryRenderer blockSource globalSource path).source = blockSource) := by
  constructor
  · intro hflag
    have hmain : getQueryForQueryRenderer blockSource globalSource path
        = parseQuery (globalSource ++ jstr "\n" ++ blockSource) path := by
      rw [getQueryForQueryRenderer, hflag]
      simp only [Bool.false_eq_true, if_false]
      rw [queryAppend, parseQuery_source, parseQuery_source, parseQuery_filePath]
    exact ⟨hmain, by rw [hmain, parseQuery_source]⟩
  · intro hflag
    have hmain : getQueryForQueryRenderer blockSource globalSource path
        = parseQuery blockSource path := by
      rw [getQueryForQueryRenderer, hflag]
      simp only [if_true]
    exact ⟨hmain, by rw [hmain, parseQuery_source]⟩

/-- Witness for C7 at the two scenarios the `QueryRendererHelper` tests pin:
an ordinary block query combines source texts with a newline; a block with
`ignore global query` keeps exactly its own source. -/
theorem claim_C7_global_query_combination_witness :
    (getQueryForQueryRenderer (jstr "description includes world")
        (jstr "description includes hello") (some (jstr "a/b/c.md"))).source
      = jstr "description includes hello\ndescription includes world"
    ∧ (getQueryForQueryRenderer
        (jstr "description includes from_block_query\nignore global query")
        (jstr "path includes from_global_query") (some (jstr "a/b/c.md"))).source
      = jstr "description includes from_block_query\nignore global query" := by
  constructor
  · have h := (claim_C7_global_query_combination
        (jstr "description includes hello") (jstr "description includes world")
        (some (jstr "a/b/c.md"))).1 (by decide)
    rw [h.2]
    rfl
  · have h := (claim_C7_global_query_combination
        (jstr "path includes from_global_query")
        (jstr "description includes from_block_query\nignore global query")
        (some (jstr "a/b/c.md"))).2 (by decide)
    exact h.2

/-!
## Case-insensitivity of instruction parsing (claim C3)
-/

/-- Lower-case the free-text payloads of a compiled filter, leaving its
structure untouched: two compiled filters with the same image differ at
most in payload letter case. -/
def stripPayloadCase : FilterAst → FilterAst
  | .descIncludes s => .descIncludes (toLowerL s)
  | .descNotIncludes s => .descNotIncludes (toLowerL s)
  | .byFunction e => .byFunction (toLowerL e)
  | .andF a b => .andF (stripPayloadCase a) (stripPayloadCase b)
  | .orF a b => .orF (stripPayloadCase a) (stripPayloadCase b)
  | .xorF a b => .xorF (stripPayloadCase a) (stripPayloadCase b)
  | .notF a => .notF (stripPayloadCase a)
  | f => f

/-- Lower-case the payloads of a parsed instruction. -/
def stripInstr : Instr → Instr
  | .filterInstr f => .filterInstr (stripPayloadCase f)
  | i => i

/-- Does the compiled filter avoid custom-function expressions?  Only those
evaluate their payload case-sensitively. -/
def funcFree : FilterAst → Bool
  | .byFunction _ => false
  | .andF a b => funcFree a && funcFree b
  | .orF a b => funcFree a && funcFree b
  | .xorF a b => funcFree a && funcFree b
  | .notF a => funcFree a
  | _ => true

set_option maxHeartbeats 2000000 in
theorem parseCore_toLower_congr (a b : JStr) (h : toLowerL a = toLowerL b) :
    Option.map stripInstr (parseCore a) = Option.map stripInstr (parseCore b) := by
  simp only [parseCore]
  rw [h]
  by_cases h1 : toLowerL b = jstr "done"
  · simp only [if_pos h1]
  simp only [if_neg h1]
  by_cases h2 : toLowerL b = jstr "not done"
  · simp only [if_pos h2]
  simp only [if_neg h2]
  by_cases h3 : hasPrefixL (jstr "description includes ") (toLowerL b) = true
  · simp only [if_pos h3, Option.map_some', stripInstr, stripPayloadCase]
    rw [lowerChar_map_drop, lowerChar_map_drop, h]
  simp only [if_neg h3]
  by_cases h4 : hasPrefixL (jstr "description does not include ") (toLowerL b) = true
  · simp only [if_pos h4, Option.map_some', stripInstr, stripPayloadCase]
    rw [lowerChar_map_drop, lowerChar_map_drop, h]
  simp only [if_neg h4]
  by_cases h5 : hasPrefixL (jstr "filter by function ") (toLowerL b) = true
  · simp only [if_pos h5, Option.map_some', stripInstr, stripPayloadCase]
    rw [lowerChar_map_drop, lowerChar_map_drop, h]
  simp only [if_neg h5]

theorem evalFilter_strip_congr :
    ∀ (f g : FilterAst), stripPayloadCase f = stripPayloadCase g → funcFree f = true →
      ∀ (ev ev' : JStr → QTask → Except JStr Bool) (t : QTask),
        evalFilter ev f t = evalFilter ev' g t := by
  intro f
  induction f with
  | statusDone =>
    intro g hs _ ev ev' t
    cases g <;> simp only [stripPayloadCase] at hs <;> first | rfl | exact absurd hs (by simp)
  | statusNotDone =>
    intro g hs _ ev ev' t
    cases g <;> simp only [stripPayloadCase] at hs <;> first | rfl | exact absurd hs (by simp)
  | descIncludes s =>
    intro g hs _ ev ev' t
    cases g <;> simp only [stripPayloadCase] at hs <;>
      first
        | (injection hs with hs
           simp only [evalFilter, stringIncludesCaseInsensitive, hs])
        | exact absurd hs (by simp)
  | descNotIncludes s =>
    intro g hs _ ev ev' t
    cases g <;> simp only [stripPayloadCase] at hs <;>
      first
        | (injection hs with hs
           simp only [evalFilter, stringIncludesCaseInsensitive, hs])
        | exact absurd hs (by simp)
  | startsCmp op d =>
    intro g hs _ ev ev' t
    cases g <;> simp only [stripPayloadCase] at hs <;>
      first
        | (injection hs with h1 h2
           subst h1
           subst h2
           simp only [evalFilter])
        | exact absurd hs (by simp)
  | scheduledCmp op d =>
    intro g hs _ ev ev' t
    cases g <;> simp only [stripPayloadCase] at hs <;>
      first
        | (injection hs with h1 h2
           subst h1
           subst h2
           simp only [evalFilter])
        | exact absurd hs (by simp)
  | dueCmp op d =>
    intro g hs _ ev ev' t
    cases g <;> simp only [stripPayloadCase] at hs <;>
      first
        | (injection hs with h1 h2
           subst h1
           subst h2
           simp only [evalFilter])
        | exact absurd hs (by simp)
  | byFunction e =>
    intro g hs hf
    exact absurd hf (by simp [funcFree])
  | andF fa fb iha ihb =>
    intro g hs hf ev ev' t
    have hfa : funcFree fa = true := by
      have := hf
      simp only [funcFree, Bool.and_eq_true] at this
      exact this.1
    have hfb : funcFree fb = true := by
      have := hf
      simp only [funcFree, Bool.and_eq_true] at this
      exact this.2
    cases g <;> simp only [stripPayloadCase] at hs <;>
      first
        | (injection hs with h1 h2
           simp only [evalFilter]
           rw [iha _ h1 hfa ev ev' t, ihb _ h2 hfb ev ev' t])
        | exact absurd hs (by simp)
  | orF fa fb iha ihb =>
    intro g hs hf ev ev' t
    have hfa : funcFree fa = true := by
      have := hf
      simp only [funcFree, Bool.and_eq_true] at this
      exact this.1
    have hfb : funcFree fb = true := by
      have := hf
      simp only [funcFree, Bool.and_eq_true] at this
      exact this.2
    cases g <;> simp only [stripPayloadCase] at hs <;>
      first
        | (injection hs with h1 h2
           simp only [evalFilter]
           rw [iha _ h1 hfa ev ev' t, ihb _ h2 hfb ev ev' t])
        | exact absurd hs (by simp)
  | xorF fa fb iha ihb =>
    intro g hs hf ev ev' t
    have hfa : funcFree fa = true := by
      have := hf
      simp only [funcFree, Bool.and_eq_true] at this
      exact this.1
    have hfb : funcFree fb = true := by
      have := hf
      simp only [funcFree, Bool.and_eq_true] at this
      exact this.2
    cases g <;> simp only [stripPayloadCase] at hs <;>
      first
        | (injection hs with h1 h2
           simp only [evalFilter]
           rw [iha _ h1 hfa ev ev' t, ihb _ h2 hfb ev ev' t])
        | exact absurd hs (by simp)
  | notF fa iha =>
    intro g hs hf ev ev' t
    have hfa : funcFree fa = true := by simpa [funcFree] using hf
    cases g <;> simp only [stripPayloadCase] at hs <;>
      first
        | (injection hs with h1
           simp only [evalFilter]
           rw [iha _ h1 hfa ev ev' t])
        | exact absurd hs (by simp)

/-- Claim C3 counterexample: the `filter by function` instruction parses in
any letter-casing into one filter with no error, yet applying the two
casing variants to the same task list yields different results — the
lower-cased expression `task.isDone` evaluates, while `TASK.ISDONE` throws
at evaluation time (the repository's own error-handling test pins the
analogous `wibble` / `WIBBLE` divergence), so the claimed result-equality
over all casings does not hold. -/
theorem claim_C3_case_insensitivity_counterexample :
    toLowerL (jstr "filter by function task.isDone")
      = toLowerL (jstr "FILTER BY FUNCTION TASK.ISDONE")
    ∧ (parseQuery (jstr "filter by function task.isDone") none).error = none
    ∧ (parseQuery (jstr "FILTER BY FUNCTION TASK.ISDONE") none).error = none
    ∧ (parseQuery (jstr "filter by function task.isDone") none).filters.length = 1
    ∧ (parseQuery (jstr "FILTER BY FUNCTION TASK.ISDONE") none).filters.length = 1
    ∧ applyQueryToTasks jsFunctionEval
        (parseQuery (jstr "filter by function task.isDone") none)
        [⟨jstr "Done", jstr "x", jstr "f.md", none, none, none⟩]
      ≠ applyQueryToTasks jsFunctionEval
        (parseQuery (jstr "FILTER BY FUNCTION TASK.ISDONE") none)
        [⟨jstr "Done", jstr "x", jstr "f.md", none, none, none⟩] := by
  refine ⟨by decide, by decide, by decide, by decide, by decide, ?_⟩
  intro hcontra
  have h1 : applyQueryToTasks jsFunctionEval
      (parseQuery (jstr "filter by function task.isDone") none)
      [⟨jstr "Done", jstr "x", jstr "f.md", none, none, none⟩]
      = ⟨[([], [⟨jstr "Done", jstr "x", jstr "f.md", none, none, none⟩])], 1, 1, none⟩ := by
    decide
  have h2 : applyQueryToTasks jsFunctionEval
      (parseQuery (jstr "FILTER BY FUNCTION TASK.ISDONE") none)
      [⟨jstr "Done", jstr "x", jstr "f.md", none, none, none⟩]
      = ⟨[], 0, 0,
         some (jstr "Error: Search failed.\nThe error message was:\n    \"ReferenceError: TASK is not defined\"")⟩ := by
    decide
  rw [h1, h2] at hcontra
  exact absurd hcontra (by decide)

/-- Claim C3 amended: for the single-field instruction families
(filter/sort/group/limit), parsing a line in any letter-casing produces
the same compiled result up to payload letter case — in particular the
same kind and number of filters, sorters and groupers, and parse success
in one casing implies it in every casing; and for every such filter except
the custom-function filters (whose expressions evaluate case-sensitively),
the two compiled filters agree on every task. -/
theorem claim_C3_case_insensitivity_amended :
    ∀ a b : JStr, toLowerL a = toLowerL b →
      Option.map stripInstr (parseCore a) = Option.map stripInstr (parseCore b)
      ∧ ((parseCore a).isSome ↔ (parseCore b).isSome)
      ∧ (∀ f g : FilterAst,
          parseCore a = some (.filterInstr f) →
          parseCore b = some (.filterInstr g) →
          funcFree f = true →
          ∀ (ev ev' : JStr → QTask → Except JStr Bool) (t : QTask),
            evalFilter ev f t = evalFilter ev' g t) := by
  intro a b h
  have hmap := parseCore_toLower_congr a b h
  refine ⟨hmap, ?_, ?_⟩
  · constructor
    · intro ha
      rcases Option.isSome_iff_exists.mp ha with ⟨i, hi⟩
      rw [hi] at hmap
      cases hb : parseCore b with
      | none => rw [hb] at hmap; exact Option.noConfusion hmap
      | some j => simp [hb]
    · intro hb
      rcases Option.isSome_iff_exists.mp hb with ⟨i, hi⟩
      rw [hi] at hmap
      cases ha : parseCore a with
      | none => rw [ha] at hmap; exact Option.noConfusion hmap
      | some j => simp [ha]
  · intro f g hf hg hfree ev ev' t
    rw [hf, hg] at hmap
    simp only [Option.map_some', stripInstr] at hmap
    injection hmap with hmap
    injection hmap with hmap
    exact evalFilter_strip_congr f g hmap hfree ev ev' t

/-- Witness for the amended C3 at the mixed-case pair the query-parsing
tests use. -/
theorem claim_C3_case_insensitivity_amended_witness :
    Option.map stripInstr (parseCore (jstr "description includes wibble"))
      = Option.map stripInstr (parseCore (jstr "DESCRIPTION INCLUDES wibble"))
    ∧ evalFilter jsFunctionEval (FilterAst.descIncludes (jstr "wibble"))
        ⟨jstr "Todo", jstr "has wibble inside", jstr "f.md", none, none, none⟩
      = evalFilter jsFunctionEval (FilterAst.descIncludes (jstr "WIBBLE"))
        ⟨jstr "Todo", jstr "has wibble inside", jstr "f.md", none, none, none⟩ := by
  have h := claim_C3_case_insensitivity_amended
    (jstr "description includes wibble") (jstr "DESCRIPTION INCLUDES WIBBLE") (by decide)
  refine ⟨?_, ?_⟩
  · exact (claim_C3_case_insensitivity_amended
      (jstr "description includes wibble") (jstr "DESCRIPTION INCLUDES wibble")
      (by decide)).1
  · exact h.2.2 (FilterAst.descIncludes (jstr "wibble"))
      (FilterAst.descIncludes (jstr "WIBBLE")) (by decide) (by decide) (by decide)
      jsFunctionEval jsFunctionEval
      ⟨jstr "Todo", jstr "has wibble inside", jstr "f.md", none, none, none⟩

/-!
## Fuel monotonicity and tokenizer lemmas (claim C4)
-/

theorem parseFuel_mono :
    ∀ n : Nat,
      (∀ m, n ≤ m → ∀ s a, parseFilterFuel n s = some a → parseFilterFuel m s = some a)
      ∧ (∀ m, n ≤ m → ∀ toks a,
          parseBoolToksFuel n toks = some a → parseBoolToksFuel m toks = some a)
      ∧ (∀ m, n ≤ m → ∀ acc toks a,
          parseBoolChainFuel n acc toks = some a → parseBoolChainFuel m acc toks = some a) := by
  intro n
  induction n with
  | zero =>
    refine ⟨?_, ?_, ?_⟩
    · intro m _ s a hs
      cases s with
      | nil => exact Option.noConfusion hs
      | cons c cs => exact Option.noConfusion hs
    · intro m _ toks a h
      exact Option.noConfusion h
    · intro m _ acc toks a h
      exact Option.noConfusion h
  | succ n ih =>
    refine ⟨?_, ?_, ?_⟩
    · intro m hm s a hs
      cases s with
      | nil => exact Option.noConfusion hs
      | cons c cs =>
        cases m with
        | zero => omega
        | succ m' =>
          have hmn : n ≤ m' := by omega
          simp only [parseFilterFuel] at hs ⊢
          cases hpc : parseCore (c :: cs) with
          | some i =>
            simp only [hpc] at hs
            cases i
            case filterInstr f => exact hs
            case sortByStatus => exact Option.noConfusion hs
            case groupByStatusInstr => exact Option.noConfusion hs
            case limitTo k => exact Option.noConfusion hs
            case ignoreGlobalQueryInstr => exact Option.noConfusion hs
            case explainInstr => exact Option.noConfusion hs
          | none =>
            simp only [hpc] at hs
            by_cases hc : c = '('
            · rw [if_pos hc] at hs ⊢
              cases htk : tokenizeBool (c :: cs) with
              | none =>
                simp only [htk] at hs
                exact Option.noConfusion hs
              | some toks =>
                simp only [htk] at hs
                exact (ih.2.1 m' hmn) toks a hs
            · rw [if_neg hc] at hs
              exact Option.noConfusion hs
    · intro m hm toks a h
      cases m with
      | zero => omega
      | succ m' =>
        have hmn : n ≤ m' := by omega
        match toks with
        | [] => exact Option.noConfusion h
        | .wordTok w :: [] => exact Option.noConfusion h
        | .wordTok w :: .wordTok n2 :: rest => exact Option.noConfusion h
        | .wordTok w :: .operandTok o :: rest =>
          simp only [parseBoolToksFuel] at h ⊢
          by_cases hw : w = jstr "NOT"
          · rw [if_pos hw] at h ⊢
            cases hp : parseFilterFuel n o with
            | none =>
              simp only [hp] at h
              exact Option.noConfusion h
            | some l =>
              simp only [hp] at h
              rw [ih.1 m' hmn o l hp]
              exact ih.2.2 m' hmn _ _ _ h
          · rw [if_neg hw] at h
            exact Option.noConfusion h
        | .operandTok o :: rest =>
          simp only [parseBoolToksFuel] at h ⊢
          cases hp : parseFilterFuel n o with
          | none =>
            simp only [hp] at h
            exact Option.noConfusion h
          | some l =>
            simp only [hp] at h
            rw [ih.1 m' hmn o l hp]
            exact ih.2.2 m' hmn _ _ _ h
    · intro m hm acc toks a h
      cases m with
      | zero => omega
      | succ m' =>
        have hmn : n ≤ m' := by omega
        match toks with
        | [] =>
          simp only [parseBoolChainFuel] at h ⊢
          exact h
        | .wordTok w :: .wordTok n2 :: .operandTok o :: rest =>
          simp only [parseBoolChainFuel] at h ⊢
          by_cases hw : (n2 = jstr "NOT" && (w = jstr "AND" || w = jstr "OR")) = true
          · rw [if_pos hw] at h ⊢
            cases hp : parseFilterFuel n o with
            | none =>
              simp only [hp] at h
              exact Option.noConfusion h
            | some l =>
              simp only [hp] at h
              simp only [ih.1 m' hmn o l hp]
              cases hmk : mkBoolOp w acc (.notF l) with
              | none =>
                simp only [hmk] at h
                exact Option.noConfusion h
              | some acc2 =>
                simp only [hmk] at h
                exact ih.2.2 m' hmn _ _ _ h
          · rw [if_neg hw] at h
            exact Option.noConfusion h
        | .wordTok w :: .operandTok o :: rest =>
          simp only [parseBoolChainFuel] at h ⊢
          cases hp : parseFilterFuel n o with
          | none =>
            simp only [hp] at h
            exact Option.noConfusion h
          | some l =>
            simp only [hp] at h
            simp only [ih.1 m' hmn o l hp]
            cases hmk : mkBoolOp w acc l with
            | none =>
              simp only [hmk] at h
              exact Option.noConfusion h
            | some acc2 =>
              simp only [hmk] at h
              exact ih.2.2 m' hmn _ _ _ h
        | .wordTok w :: [] => exact Option.noConfusion h
        | .wordTok w :: .wordTok n2 :: [] => exact Option.noConfusion h
        | .wordTok w :: .wordTok n2 :: .wordTok n3 :: rest => exact Option.noConfusion h
        | .operandTok o :: rest => exact Option.noConfusion h

/-- Folding the tokenizer over a bracket-safe string inside an operand only
accumulates characters and tracks the depth the bracket scan computes. -/
theorem foldl_tokStep_opMode (f : JStr) :
    ∀ (k k' : Nat) (toks : List BTok) (acc : JStr),
      scanDepth k f = some k' →
      List.foldl tokStep { toks := toks, mode := .opMode k acc } f
        = { toks := toks, mode := .opMode k' (f.reverse ++ acc) } := by
  induction f with
  | nil =>
    intro k k' toks acc h
    simp only [scanDepth, Option.some.injEq] at h
    subst h
    simp [List.foldl]
  | cons c cs ih =>
    intro k k' toks acc h
    by_cases hc : c = '('
    · subst hc
      simp only [scanDepth, if_true] at h
      have hstep : tokStep { toks := toks, mode := .opMode k acc } '('
          = { toks := toks, mode := .opMode (k + 1) ('(' :: acc) } := rfl
      rw [List.foldl_cons, hstep, ih (k + 1) k' toks ('(' :: acc) h]
      simp [List.append_assoc]
    · by_cases hc2 : c = ')'
      · subst hc2
        simp only [scanDepth, if_true, if_false] at h
        cases k with
        | zero => exact Option.noConfusion h
        | succ j =>
          have hstep : tokStep { toks := toks, mode := .opMode (j + 1) acc } ')'
              = { toks := toks, mode := .opMode j (')' :: acc) } := rfl
          rw [List.foldl_cons, hstep, ih j k' toks (')' :: acc) h]
          simp [List.append_assoc]
      · simp only [scanDepth] at h
        rw [if_neg hc, if_neg hc2] at h
        have hstep : tokStep { toks := toks, mode := .opMode k acc } c
            = { toks := toks, mode := .opMode k (c :: acc) } := by
          simp [tokStep, hc, hc2]
        rw [List.foldl_cons, hstep, ih k k' toks (c :: acc) h]
        simp [List.append_assoc]

/-- Tokenizing `(f) OR NOT (f)` for a bracket-balanced payload `f` yields
operand, `OR`, `NOT`, operand. -/
theorem tokenizeBool_composed (f : JStr) (hbal : balancedParens f = true) :
    tokenizeBool (jstr "(" ++ f ++ jstr ") OR NOT (" ++ f ++ jstr ")")
      = some [.operandTok f, .wordTok (jstr "OR"), .wordTok (jstr "NOT"),
              .operandTok f] := by
  have hscan : scanDepth 0 f = some 0 := of_decide_eq_true hbal
  have s1 : List.foldl tokStep { toks := [], mode := .topMode [] } (jstr "(")
      = { toks := [], mode := .opMode 0 [] } := rfl
  have s3 : ∀ (tk : List BTok) (racc : JStr),
      List.foldl tokStep { toks := tk, mode := .opMode 0 racc } (jstr ") OR NOT (")
        = { toks := .wordTok (jstr "NOT") :: .wordTok (jstr "OR")
              :: .operandTok racc.reverse :: tk, mode := .opMode 0 [] } := by
    intro tk racc
    rfl
  have s5 : ∀ (tk : List BTok) (racc : JStr),
      List.foldl tokStep { toks := tk, mode := .opMode 0 racc } (jstr ")")
        = { toks := .operandTok racc.reverse :: tk, mode := .topMode [] } := by
    intro tk racc
    rfl
  rw [tokenizeBool]
  rw [List.foldl_append, List.foldl_append, List.foldl_append, List.foldl_append]
  rw [s1, foldl_tokStep_opMode f 0 0 [] [] hscan, s3,
      foldl_tokStep_opMode f 0 0 _ [] hscan, s5]
  simp [flushWord]

/-- Parsing the composed token list `(f) OR NOT (f)` folds into a single
`orF _ (notF _)` combinator. -/
theorem parseBoolToks_composed (f : JStr) (ast : FilterAst) (fuel : Nat)
    (hf : parseFilterFuel (fuel + 1) f = some ast) :
    parseBoolToksFuel (fuel + 3)
        [.operandTok f, .wordTok (jstr "OR"), .wordTok (jstr "NOT"),
         .operandTok f]
      = some (.orF ast (.notF ast)) := by
  have hf2 : parseFilterFuel (fuel + 2) f = some ast :=
    (parseFuel_mono (fuel + 1)).1 (fuel + 2) (Nat.le_succ _) f ast hf
  simp only [parseBoolToksFuel, hf2]
  simp only [parseBoolChainFuel]
  rw [if_pos (by decide)]
  simp only [hf]
  simp only [mkBoolOp]
  rw [if_neg (by decide), if_pos (by decide)]

/-- C4 (amended): for every filter line `f` the instruction parser accepts
whose round brackets are balanced, the boolean query `(f) OR NOT (f)`
compiles without error into exactly one combined filter, and whenever the
leaf filter evaluates without error the combined filter evaluates to true,
whatever the task holds. -/
theorem claim_C4_boolean_tautology_amended (f : JStr) (ast : FilterAst)
    (hparse : parseFilterInstr f = some ast)
    (hbal : balancedParens f = true) :
    parseInstr (jstr "(" ++ f ++ jstr ") OR NOT (" ++ f ++ jstr ")")
        = some (.filterInstr (.orF ast (.notF ast)))
    ∧ ∀ (ev : JStr → QTask → Except JStr Bool) (t : QTask) (v : Bool),
        evalFilter ev ast t = .ok v →
        evalFilter ev (.orF ast (.notF ast)) t = .ok true := by
  constructor
  · have hcomp : jstr "(" ++ f ++ jstr ") OR NOT (" ++ f ++ jstr ")"
        = '(' :: (f ++ jstr ") OR NOT (" ++ f ++ jstr ")") := rfl
    have htok := tokenizeBool_composed f hbal
    rw [hcomp] at htok
    have hpc : ∀ cs : JStr, parseCore ('(' :: cs) = none := fun cs => rfl
    have h10 : (jstr ") OR NOT (").length = 10 := rfl
    have h1 : (jstr ")").length = 1 := rfl
    have hlen : ('(' :: (f ++ jstr ") OR NOT (" ++ f ++ jstr ")")).length
        = 2 * f.length + 12 := by
      simp only [List.length_cons, List.length_append, h10, h1]
      omega
    have hparse' : parseFilterFuel (2 * f.length + 2) f = some ast := hparse
    have hmono : parseFilterFuel ((4 * f.length + 22) + 1) f = some ast :=
      (parseFuel_mono (2 * f.length + 2)).1 ((4 * f.length + 22) + 1)
        (by omega) f ast hparse'
    have htoks := parseBoolToks_composed f ast (4 * f.length + 22) hmono
    have h25 : (4 * f.length + 22) + 3 = 4 * f.length + 25 := by omega
    rw [h25] at htoks
    have hfuel : 2 * ('(' :: (f ++ jstr ") OR NOT (" ++ f ++ jstr ")")).length + 2
        = (4 * f.length + 25) + 1 := by
      rw [hlen]; omega
    simp only [parseInstr, hcomp, hpc, parseFilterInstr]
    rw [hfuel]
    simp only [parseFilterFuel, hpc, if_pos rfl, htok, htoks, Option.map]
    rw [if_pos trivial]
  · intro ev t v hv
    simp only [evalFilter, hv]
    cases v
    · rfl
    · rfl

/-- Witness for C4 (amended) at the spec's Scenario F payload
`description includes line 1`. -/
theorem claim_C4_boolean_tautology_amended_witness :
    parseInstr (jstr "(" ++ jstr "description includes line 1" ++ jstr ") OR NOT ("
        ++ jstr "description includes line 1" ++ jstr ")")
      = some (.filterInstr (.orF (.descIncludes (jstr "line 1"))
          (.notF (.descIncludes (jstr "line 1")))))
    ∧ ∀ (ev : JStr → QTask → Except JStr Bool) (t : QTask) (v : Bool),
        evalFilter ev (.descIncludes (jstr "line 1")) t = .ok v →
        evalFilter ev (.orF (.descIncludes (jstr "line 1"))
            (.notF (.descIncludes (jstr "line 1")))) t = .ok true :=
  claim_C4_boolean_tautology_amended (jstr "description includes line 1")
    (.descIncludes (jstr "line 1")) (by decide) (by decide)

/-- C4 counterexample: the claim quantifies over every filter instruction
the parser accepts, but a payload with an unbalanced round bracket is
accepted as a filter line while the composed boolean query
`(f) OR NOT (f)` fails to compile (the brackets mis-nest and the boolean
expression is unterminated), so no combined filter is produced at all. -/
theorem claim_C4_boolean_tautology_counterexample :
    parseFilterInstr (jstr "description includes (")
        = some (.descIncludes (jstr "("))
    ∧ parseInstr (jstr "(" ++ jstr "description includes (" ++ jstr ") OR NOT ("
        ++ jstr "description includes (" ++ jstr ")") = none :=
  ⟨by decide, by decide⟩

/-- Inside a placeholder name, the scanner only accumulates characters
until a closing brace arrives. -/
theorem foldl_phStep_inName (ctx : List (JStr × JStr)) (p : JStr) :
    ∀ (out acc : JStr), (∀ c ∈ p, c ≠ '\x7d') →
      List.foldl (phStep ctx) { out := out, mode := .inNamePH acc } p
        = { out := out, mode := .inNamePH (p.reverse ++ acc) } := by
  induction p with
  | nil => intro out acc _; simp
  | cons c cs ih =>
    intro out acc h
    have hc : c ≠ '\x7d' := h c (List.mem_cons_self _ _)
    have hstep : phStep ctx { out := out, mode := .inNamePH acc } c
        = { out := out, mode := .inNamePH (c :: acc) } := by
      simp only [phStep]
      rw [if_neg hc]
    rw [List.foldl_cons, hstep,
        ih out (c :: acc) (fun d hd => h d (List.mem_cons_of_mem _ hd))]
    simp [List.append_assoc]

/-- Expanding a line whose single placeholder names an unknown property
fails with `Unknown property: <path>` naming the exact dotted path. -/
theorem expandPlaceholders_unknown (ctx : List (JStr × JStr)) (p : JStr)
    (hnb : ∀ c ∈ p, c ≠ '\x7d')
    (hlk : lookupProp ctx (trimL p) = none) :
    expandPlaceholdersLine ctx
        (jstr "description includes \x7b\x7b" ++ p ++ jstr "\x7d\x7d")
      = .error (jstr "Unknown property: " ++ trimL p) := by
  have hpre : List.foldl (phStep ctx) { out := [], mode := .normalPH }
      (jstr "description includes \x7b\x7b")
      = { out := (jstr "description includes ").reverse, mode := .inNamePH [] } := rfl
  have hmid := foldl_phStep_inName ctx p ((jstr "description includes ").reverse) [] hnb
  have hfold : List.foldl (phStep ctx) { out := [], mode := .normalPH }
      (jstr "description includes \x7b\x7b" ++ p ++ jstr "\x7d\x7d")
      = { out := (jstr "description includes ").reverse,
          mode := .failedPH (jstr "Unknown property: " ++ trimL p) } := by
    rw [List.foldl_append, List.foldl_append, hpre, hmid]
    have e1 : (jstr "\x7d\x7d") = ['\x7d', '\x7d'] := rfl
    have s1 : phStep ctx
        ⟨(jstr "description includes ").reverse, .inNamePH (p.reverse ++ [])⟩ '\x7d'
        = ⟨(jstr "description includes ").reverse, .sawClosePH (p.reverse ++ [])⟩ := rfl
    have s2 : phStep ctx
        ⟨(jstr "description includes ").reverse, .sawClosePH (p.reverse ++ [])⟩ '\x7d'
        = ⟨(jstr "description includes ").reverse,
            .failedPH (jstr "Unknown property: " ++ trimL p)⟩ := by
      simp only [phStep]
      rw [if_pos trivial]
      have hrr : (p.reverse ++ ([] : JStr)).reverse = p := by simp
      rw [hrr, hlk]
    rw [e1, List.foldl_cons, s1, List.foldl_cons, s2, List.foldl_nil]
  simp only [expandPlaceholdersLine]
  rw [hfold]

/-- C6: a query containing a `\x7b\x7b...\x7d\x7d` placeholder fails with
the `no file path supplied` error when the Query got no path (before any
resolution), and with a wrapped `Unknown property: <path>` error naming
the exact dotted path when a path was supplied but the property is
unknown; in both cases `Query.error` is set and no filter accumulates. -/
theorem claim_C6_placeholder_errors :
    (∀ source : JStr,
        containsSub (jstr "\x7b\x7b") source = true →
        containsSub (jstr "\x7d\x7d") source = true →
        (parseQuery source none).error = some (noPathErrorMsg source)
        ∧ (parseQuery source none).filters = [])
    ∧ (∀ (path p : JStr),
        (∀ c ∈ p, c ≠ '\x7d') →
        (∀ c ∈ p, c ≠ '\n') →
        lookupProp (makeQueryContext path) (trimL p) = none →
        (parseQuery (jstr "description includes \x7b\x7b" ++ p ++ jstr "\x7d\x7d")
            (some path)).error
          = some (placeholderErrorMsg (jstr "Unknown property: " ++ trimL p)
              (jstr "description includes \x7b\x7b" ++ p ++ jstr "\x7d\x7d"))
        ∧ (parseQuery (jstr "description includes \x7b\x7b" ++ p ++ jstr "\x7d\x7d")
            (some path)).filters = []) := by
  constructor
  · intro source h1 h2
    constructor
    · simp only [parseQuery]
      rw [if_pos (by simp [h1, h2])]
    · simp only [parseQuery]
      rw [if_pos (by simp [h1, h2])]
  · intro path p hnb hnl hlk
    have hhead : (jstr "description includes \x7b\x7b" ++ p
        ++ jstr "\x7d\x7d").head? = some 'd' := rfl
    have hrevhead : (jstr "description includes \x7b\x7b" ++ p
        ++ jstr "\x7d\x7d").reverse.head? = some '\x7d' := by
      rw [List.reverse_append]
      rfl
    have htrim : trimL (jstr "description includes \x7b\x7b" ++ p ++ jstr "\x7d\x7d")
        = jstr "description includes \x7b\x7b" ++ p ++ jstr "\x7d\x7d" := by
      refine trimL_id_of_edges _ ?_ ?_
      · intro c hc
        rw [hhead] at hc
        injection hc with hc
        subst hc
        decide
      · intro c hc
        rw [hrevhead] at hc
        injection hc with hc
        subst hc
        decide
    have hnonl : ∀ c ∈ (jstr "description includes \x7b\x7b" ++ p
        ++ jstr "\x7d\x7d"), c ≠ '\n' := by
      intro c hc
      rcases List.mem_append.mp hc with hc | hc
      · rcases List.mem_append.mp hc with hc | hc
        · have hlit : ∀ c ∈ jstr "description includes \x7b\x7b", c ≠ '\n' := by decide
          exact hlit c hc
        · exact hnl c hc
      · have hlit : ∀ c ∈ jstr "\x7d\x7d", c ≠ '\n' := by decide
        exact hlit c hc
    have hsplit := splitLines_single _ hnonl
    have hne : ¬ (jstr "description includes \x7b\x7b" ++ p ++ jstr "\x7d\x7d") = [] := by
      intro h
      rw [h] at hhead
      exact Option.noConfusion hhead
    have hhash : hasPrefixL (jstr "#")
        (jstr "description includes \x7b\x7b" ++ p ++ jstr "\x7d\x7d") = false := rfl
    have hexp := expandPlaceholders_unknown (makeQueryContext path) p hnb hlk
    have hq : parseQuery (jstr "description includes \x7b\x7b" ++ p ++ jstr "\x7d\x7d")
        (some path)
        = { source := jstr "description includes \x7b\x7b" ++ p ++ jstr "\x7d\x7d",
            filePath := some path, filters := [], sorting := [], grouping := [],
            taskLimit := none, ignoreGlobalQuery := false,
            error := some (placeholderErrorMsg
              (jstr "Unknown property: " ++ trimL p)
              (jstr "description includes \x7b\x7b" ++ p ++ jstr "\x7d\x7d")) } := by
      simp only [parseQuery]
      rw [if_neg (by simp)]
      rw [hsplit, List.foldl_cons, List.foldl_nil]
      simp only [parseLine, htrim]
      rw [if_neg hne,
          if_neg (show ¬ hasPrefixL (jstr "#") (jstr "description includes \x7b\x7b"
            ++ p ++ jstr "\x7d\x7d") = true by rw [hhash]; exact Bool.false_ne_true)]
      simp only [hexp, setQueryError]
    rw [hq]
    exact ⟨rfl, rfl⟩

/-- Witness for C6 at the repository's pinned test inputs: a placeholder
query with no path, and `query.file.noSuchProperty` with a path. -/
theorem claim_C6_placeholder_errors_witness :
    ((parseQuery (jstr "description includes \x7b\x7bquery.file.path\x7d\x7d")
          none).error
        = some (noPathErrorMsg
            (jstr "description includes \x7b\x7bquery.file.path\x7d\x7d"))
      ∧ (parseQuery (jstr "description includes \x7b\x7bquery.file.path\x7d\x7d")
          none).filters = [])
    ∧ ((parseQuery (jstr "description includes \x7b\x7b"
            ++ jstr "query.file.noSuchProperty" ++ jstr "\x7d\x7d")
          (some (jstr "a/b/path with space.md"))).error
        = some (placeholderErrorMsg
            (jstr "Unknown property: "
              ++ trimL (jstr "query.file.noSuchProperty"))
            (jstr "description includes \x7b\x7b"
              ++ jstr "query.file.noSuchProperty" ++ jstr "\x7d\x7d"))
      ∧ (parseQuery (jstr "description includes \x7b\x7b"
            ++ jstr "query.file.noSuchProperty" ++ jstr "\x7d\x7d")
          (some (jstr "a/b/path with space.md"))).filters = []) :=
  ⟨claim_C6_placeholder_errors.1
      (jstr "description includes \x7b\x7bquery.file.path\x7d\x7d")
      (by decide) (by decide),
   claim_C6_placeholder_errors.2 (jstr "a/b/path with space.md")
      (jstr "query.file.noSuchProperty") (by decide) (by decide) (by decide)⟩
